import Mathlib

/-!
Shallow embedding of the `PromiseCacheX` cache engine
(`src/src/PromiseCacheX.ts`, the LRU-capable revision of the class).

The engine's mutable fields (`cache`, `ttl`, `cleanupInterval`,
`maxEntries`, `cleanupTimer`) together with the ambient promise runtime
(a table of promises and the `_markResolved` reactions `_set` registers
on them via `.then`) are modelled as one explicit state record.
`Map<string, CachedItem>` becomes a list of items in insertion order:
the code only ever calls `Map.set` on a key it just checked absent or
just deleted, so `set` is modelled as append-at-end, `delete` as
key-filter, matching JS `Map` iteration-order semantics for this code.
Timestamps (`Date.now()`) are naturals passed in explicitly; `+Infinity`
expiry gets its own constructor.  Values and error reasons are `Int`.
`await` suspensions are modelled by splitting `get` into its synchronous
phase (`getSync`, everything up to the `await` inside `_handlePromise`)
and the settlement phase (`settle` fires the `_markResolved` reactions
registered by `_set` — they were registered before the awaiting caller's
reaction, hence run first — and `handleSettled` is the awaiting caller's
continuation).  The `invocations` counter instruments how many times a
caller-supplied fetcher function has been invoked by `_fetchValue`.
-/

set_option autoImplicit false

namespace PromiseCacheX

/-- Settlement status of a promise. -/
inductive PStatus where
  | pending
  | fulfilled (v : Int)
  | rejected (e : Int)
deriving DecidableEq

/-- One promise of the runtime's promise table: its status and the keys
whose `_markResolved` reactions were registered on it by `_set`'s
`.then(() => markResolved(key), () => markResolved(key))` call
(both reaction slots perform the same action, so one list suffices).
Reactions not yet delivered are kept; `settle` delivers them. -/
structure PromiseRec where
  status : PStatus
  callbacks : List String
deriving DecidableEq

/-- `Promise<T> | T`: what a `CachedItem.promise` field holds. -/
inductive PVal where
  | prom (id : Nat)
  | val (v : Int)
deriving DecidableEq

/-- `expiresAt`: a finite timestamp, or `+Infinity` when the effective TTL is 0. -/
inductive ExpiresAt where
  | fin (t : Nat)
  | inf
deriving DecidableEq

/-- The check `item.expiresAt > now`. -/
def ExpiresAt.gtNow : ExpiresAt → Nat → Bool
  | .inf, _ => true
  | .fin t, now => decide (now < t)

/-- The check `item.expiresAt <= now`. -/
def ExpiresAt.leNow : ExpiresAt → Nat → Bool
  | .inf, _ => false
  | .fin t, now => decide (t ≤ now)

/-- `CachedItem` of the source: key, stored promise-or-value, absolute
expiry, and the `isResolved` flag driving LRU eligibility. -/
structure CachedItem where
  key : String
  promise : PVal
  expiresAt : ExpiresAt
  isResolved : Bool
deriving DecidableEq

/-- Predicate for `Map.has(key)` / `Map.get(key)` on the item list. -/
def keyIs (k : String) (it : CachedItem) : Bool := it.key == k

/-- `Map.get(key)` on the insertion-ordered item list. -/
def lookupL (l : List CachedItem) (k : String) : Option CachedItem :=
  l.find? (keyIs k)

/-- `Map.delete(key)` on the insertion-ordered item list. -/
def eraseKeyL (l : List CachedItem) (k : String) : List CachedItem :=
  l.filter (fun it => !keyIs k it)

/-- The keys of the map, in insertion order. -/
def keysOf (l : List CachedItem) : List String := l.map (·.key)

/-- Replace the element at index `i` (no-op when out of range). -/
def updateAt {α : Type} : List α → Nat → (α → α) → List α
  | [], _, _ => []
  | x :: xs, 0, f => f x :: xs
  | x :: xs, n + 1, f => x :: updateAt xs n f

/-- The whole mutable state of one `PromiseCacheX` instance plus the
promise runtime it interacts with. -/
structure CacheState where
  cache : List CachedItem
  ttl : Nat
  cleanupInterval : Nat
  maxEntries : Option Nat
  cleanupTimer : Bool
  proms : List PromiseRec
  invocations : Nat
deriving DecidableEq

namespace CacheState

/-- `this.cache.get(key)`. -/
def lookup (s : CacheState) (k : String) : Option CachedItem := lookupL s.cache k

/-- `this.cache.has(key)`. -/
def hasKey (s : CacheState) (k : String) : Bool := (s.lookup k).isSome

/-- `size()` — `this.cache.size`. -/
def size (s : CacheState) : Nat := s.cache.length

/-- `_delete(key)` — `this.cache.delete(key)`. -/
def deleteKey (s : CacheState) (k : String) : CacheState :=
  { s with cache := eraseKeyL s.cache k }

/-- Status of promise `i` in the runtime table. -/
def promStatus (s : CacheState) (i : Nat) : Option PStatus :=
  (s.proms.get? i).map (·.status)

end CacheState

/-- `_markResolved(key)`: if the key has an item, set its `isResolved`
flag in place. -/
def markResolved (s : CacheState) (k : String) : CacheState :=
  { s with cache := (s.cache.map
      (fun it => if keyIs k it then { it with isResolved := true } else it)) }

/-- `_moveToEnd(key, item)`: delete then re-insert at the tail. -/
def moveToEnd (s : CacheState) (k : String) (item : CachedItem) : CacheState :=
  { s with cache := eraseKeyL s.cache k ++ [item] }

/-- `_startCleanup()`. -/
def startCleanup (s : CacheState) : CacheState :=
  if s.cleanupTimer = false ∧ s.cleanupInterval ≠ 0 then
    { s with cleanupTimer := true }
  else s

/-- `_stopCleanupIfNeeded()`. -/
def stopCleanupIfNeeded (s : CacheState) : CacheState :=
  if s.cache.length = 0 ∧ s.cleanupTimer = true then
    { s with cleanupTimer := false }
  else s

/-- `_housekeeping()`: iterate the entries, deleting every expired one.
The JS loop iterates the live map but only ever deletes the item
currently visited, so folding the deletions over the initial snapshot
is the same computation. -/
def housekeeping (s : CacheState) (now : Nat) : CacheState :=
  s.cache.foldl
    (fun acc it => if it.expiresAt.leNow now then acc.deleteKey it.key else acc) s

/-- `_findLRUCandidate()`: first entry, in recency order, with
`isResolved` — or `null`. -/
def findLRUCandidate (s : CacheState) : Option String :=
  (s.cache.find? (fun it => it.isResolved)).map (·.key)

/-- The `while (this.cache.size >= this.maxEntries)` loop of
`_evictIfNeeded`.  Each iteration deletes a present key, so the loop
runs at most `size` times; `fuel` is instantiated with the entry count
at loop entry, which therefore never runs out. -/
def evictLoop : Nat → Nat → CacheState → CacheState
  | 0, _, s => s
  | fuel + 1, m, s =>
    if m ≤ s.cache.length then
      match findLRUCandidate s with
      | none => s
      | some k => evictLoop fuel m (s.deleteKey k)
    else s

/-- `_evictIfNeeded()`. -/
def evictIfNeeded (s : CacheState) : CacheState :=
  match s.maxEntries with
  | none => s
  | some m => stopCleanupIfNeeded (evictLoop s.cache.length m s)

/-- `options?.ttl ?? this.ttl`. -/
def ttlNullish (o : Option Nat) (d : Nat) : Nat := o.getD d

/-- `options?.ttl || this.ttl` (a 0 override falls back to the default). -/
def ttlOrDefault (o : Option Nat) (d : Nat) : Nat :=
  match o with
  | some t => if t = 0 then d else t
  | none => d

/-- The `expiresAt` computation of `_set`:
`(options?.ttl ?? this.ttl) === 0 ? +Infinity : now + (options?.ttl || this.ttl)`. -/
def computeExpiresAt (o : Option Nat) (d : Nat) (now : Nat) : ExpiresAt :=
  if ttlNullish o d = 0 then .inf else .fin (now + ttlOrDefault o d)

/-- The `.then(() => markResolved(key), () => markResolved(key))`
registration `_set` performs on a stored promise. -/
def registerThen (s : CacheState) (i : Nat) (k : String) : CacheState :=
  { s with proms := (updateAt s.proms i
      (fun r => { r with callbacks := r.callbacks ++ [k] })) }

/-- The guard `value instanceof Promise` of `_set`. -/
def isPromiseV : PVal → Bool
  | .prom _ => true
  | .val _ => false

/-- The `CachedItem` literal `_set` stores. -/
def newItemOf (k : String) (v : PVal) (o : Option Nat) (d now : Nat) : CachedItem :=
  ⟨k, v, computeExpiresAt o d now, !isPromiseV v⟩

/-- `_set(key, value, options)` at time `now`. -/
def setImpl (s : CacheState) (k : String) (v : PVal) (o : Option Nat) (now : Nat) :
    CacheState :=
  let s1 := if s.hasKey k then s.deleteKey k else evictIfNeeded s
  let s2 := { s1 with cache := s1.cache ++ [newItemOf k v o s.ttl now] }
  let s3 := match v with
    | .prom i => registerThen s2 i k
    | .val _ => s2
  startCleanup s3

/-- The public `set`. -/
def setOp (s : CacheState) (k : String) (v : PVal) (o : Option Nat) (now : Nat) :
    CacheState :=
  setImpl s k v o now

/-- The public `delete`. -/
def deleteOp (s : CacheState) (k : String) : CacheState :=
  stopCleanupIfNeeded (s.deleteKey k)

/-- The public `clear`. -/
def clearOp (s : CacheState) : CacheState :=
  stopCleanupIfNeeded { s with cache := [] }

/-- One tick of the interval timer: `_housekeeping()` then
`_stopCleanupIfNeeded()`. -/
def housekeepingTick (s : CacheState) (now : Nat) : CacheState :=
  stopCleanupIfNeeded (housekeeping s now)

/-- What a zero-argument fetcher function returns when invoked. -/
inductive FnRet where
  | newPromise (st : PStatus)
  | oldPromise (i : Nat)
  | plain (v : Int)
deriving DecidableEq

/-- The `FetchOrPromise<T>` argument of `get`: a fetcher function,
a bare promise, or a bare value. -/
inductive Fetch where
  | fn (r : FnRet)
  | promF (i : Nat)
  | valF (v : Int)
deriving DecidableEq

/-- `_fetchValue`: invoke the fetcher if it is a function (counted by
`invocations`), then `Promise.resolve(...)` the result — which returns
a promise argument unchanged and wraps a plain value in a fresh
fulfilled promise. -/
def fetchValue (s : CacheState) (f : Fetch) : PVal × CacheState :=
  match f with
  | .fn (.newPromise st) =>
      (.prom s.proms.length,
       { s with proms := s.proms ++ [⟨st, []⟩],
                invocations := s.invocations + 1 })
  | .fn (.oldPromise i) =>
      (.prom i, { s with invocations := s.invocations + 1 })
  | .fn (.plain v) =>
      (.prom s.proms.length,
       { s with proms := s.proms ++ [⟨.fulfilled v, []⟩],
                invocations := s.invocations + 1 })
  | .promF i => (.prom i, s)
  | .valF v =>
      (.prom s.proms.length,
       { s with proms := s.proms ++ [⟨.fulfilled v, []⟩] })

/-- The miss/expired arm of `get`: `_fetchValue` then `_set`; the
returned handle is what `_handlePromise` will await. -/
def getMiss (s : CacheState) (k : String) (f : Fetch) (o : Option Nat) (now : Nat) :
    PVal × CacheState :=
  let r := fetchValue s f
  (r.1, setImpl r.2 k r.1 o now)

/-- The synchronous phase of `get(key, fetcherOrPromise, options)`:
everything the call does before suspending at the `await` inside
`_handlePromise`.  Returns the handle being awaited and the state. -/
def getSync (s : CacheState) (k : String) (f : Fetch) (o : Option Nat) (now : Nat) :
    PVal × CacheState :=
  match s.lookup k with
  | some item =>
      if item.expiresAt.gtNow now then
        (item.promise, moveToEnd s k item)
      else getMiss s k f o now
  | none => getMiss s k f o now

/-- What `await handle` yields in state `s`: `none` while still pending. -/
def awaitResult (s : CacheState) (p : PVal) : Option (Except Int Int) :=
  match p with
  | .val v => some (.ok v)
  | .prom i =>
      match s.promStatus i with
      | some .pending => none
      | some (.fulfilled v) => some (.ok v)
      | some (.rejected e) => some (.error e)
      | none => none

/-- The continuation of `_handlePromise` once the awaited handle has
settled with result `r`: on rejection, `_delete(key)` (note: without a
`_stopCleanupIfNeeded` check) and re-throw the original reason. -/
def handleSettled (s : CacheState) (k : String) (r : Except Int Int) :
    CacheState × Except Int Int :=
  match r with
  | .ok v => (s, .ok v)
  | .error e => (s.deleteKey k, .error e)

/-- Deliver the `_markResolved` reactions registered on a promise, in
registration order. -/
def fireCallbacks (s : CacheState) (ks : List String) : CacheState :=
  ks.foldl markResolved s

/-- Settle promise `i` with outcome `st` (meaningful for non-pending
`st`): flip its status and deliver its registered reactions.  A promise
settles at most once; settling an already-settled promise is a no-op. -/
def settle (s : CacheState) (i : Nat) (st : PStatus) : CacheState :=
  match s.proms.get? i with
  | some r =>
      if r.status = .pending then
        fireCallbacks
          { s with proms := (updateAt s.proms i
              (fun q => { q with status := st, callbacks := [] })) }
          r.callbacks
      else s
  | none => s

/-- The constructor: `ttl` defaults to 1 h, `cleanupInterval` to 5 min,
`maxEntries` to unbounded; no entries, no timer.  `proms` is the
pre-existing promise table of the ambient runtime (empty unless the
caller already owns promises to pass in). -/
def initState (ttlOpt cleanupOpt : Option Nat) (maxEntries : Option Nat)
    (proms : List PromiseRec) : CacheState :=
  ⟨[], ttlOpt.getD 3600000, cleanupOpt.getD 300000, maxEntries, false, proms, 0⟩

/-- `true` iff `key` currently maps to a non-expired entry — the
condition under which `get` takes the hit path. -/
def aliveAt (s : CacheState) (k : String) (now : Nat) : Bool :=
  match s.lookup k with
  | some item => item.expiresAt.gtNow now
  | none => false

/-- Run the synchronous phases of a batch of further concurrent `get`
calls on the same key (all in the same turn, hence the shared `now`),
collecting the handle each caller ends up awaiting. -/
def runCalls (s : CacheState) (k : String) (now : Nat) :
    List (Fetch × Option Nat) → CacheState × List PVal
  | [] => (s, [])
  | c :: cs =>
      let r := getSync s k c.1 c.2 now
      let rest := runCalls r.2 k now cs
      (rest.1, r.1 :: rest.2)

/-- The timer-state invariant claimed by the specification: the cleanup
timer is active iff the cache is non-empty and the interval is
non-zero. -/
def TimerIff (s : CacheState) : Prop :=
  s.cleanupTimer = true ↔ (s.cache ≠ [] ∧ s.cleanupInterval ≠ 0)

instance : DecidablePred TimerIff := fun s => by
  unfold TimerIff
  infer_instance

/-! ### Supporting lemmas on the key-indexed list operations -/

theorem keyIs_iff {k : String} {it : CachedItem} : keyIs k it = true ↔ it.key = k := by
  simp [keyIs]

theorem keyIs_false_iff {k : String} {it : CachedItem} : keyIs k it = false ↔ it.key ≠ k := by
  simp [keyIs]

theorem lookupL_nil {k : String} : lookupL [] k = none := rfl

theorem lookupL_cons {x : CachedItem} {l : List CachedItem} {k : String} :
    lookupL (x :: l) k = if x.key = k then some x else lookupL l k := by
  by_cases h : x.key = k
  · simp [lookupL, List.find?, keyIs, h]
  · have hb : (x.key == k) = false := by simpa using h
    simp [lookupL, List.find?, keyIs, hb, h]

theorem lookupL_eq_none_iff {l : List CachedItem} {k : String} :
    lookupL l k = none ↔ ∀ it ∈ l, it.key ≠ k := by
  induction l with
  | nil => simp [lookupL_nil]
  | cons x xs ih =>
    rw [lookupL_cons]
    by_cases h : x.key = k
    · simp [h]
    · simp [h, ih]

theorem lookupL_append_of_none {l l' : List CachedItem} {k : String}
    (h : lookupL l k = none) : lookupL (l ++ l') k = lookupL l' k := by
  induction l with
  | nil => simp
  | cons x xs ih =>
    rw [lookupL_cons] at h
    by_cases hx : x.key = k
    · simp [hx] at h
    · rw [List.cons_append, lookupL_cons, if_neg hx]
      exact ih (by simpa [hx] using h)

theorem lookupL_append_of_some {l l' : List CachedItem} {k : String} {it : CachedItem}
    (h : lookupL l k = some it) : lookupL (l ++ l') k = some it := by
  induction l with
  | nil => simp [lookupL_nil] at h
  | cons x xs ih =>
    rw [lookupL_cons] at h
    by_cases hx : x.key = k
    · rw [if_pos hx] at h
      rw [List.cons_append, lookupL_cons, if_pos hx]
      exact h
    · rw [if_neg hx] at h
      rw [List.cons_append, lookupL_cons, if_neg hx]
      exact ih h

theorem lookupL_key {l : List CachedItem} {k : String} {it : CachedItem}
    (h : lookupL l k = some it) : it.key = k := by
  induction l with
  | nil => simp [lookupL_nil] at h
  | cons x xs ih =>
    rw [lookupL_cons] at h
    by_cases hx : x.key = k
    · rw [if_pos hx] at h
      cases h
      exact hx
    · rw [if_neg hx] at h
      exact ih h

theorem lookupL_mem {l : List CachedItem} {k : String} {it : CachedItem}
    (h : lookupL l k = some it) : it ∈ l :=
  List.mem_of_find?_eq_some h

theorem eraseKeyL_nil {k : String} : eraseKeyL [] k = [] := rfl

theorem eraseKeyL_cons {x : CachedItem} {l : List CachedItem} {k : String} :
    eraseKeyL (x :: l) k =
      if x.key = k then eraseKeyL l k else x :: eraseKeyL l k := by
  by_cases h : x.key = k
  · simp [eraseKeyL, List.filter, keyIs, h]
  · have hb : (x.key == k) = false := by simpa using h
    simp [eraseKeyL, List.filter, keyIs, hb, h]

theorem eraseKeyL_append {l l' : List CachedItem} {k : String} :
    eraseKeyL (l ++ l') k = eraseKeyL l k ++ eraseKeyL l' k := by
  simp [eraseKeyL, List.filter_append]

theorem eraseKeyL_of_none {l : List CachedItem} {k : String}
    (h : lookupL l k = none) : eraseKeyL l k = l := by
  induction l with
  | nil => rfl
  | cons x xs ih =>
    rw [lookupL_cons] at h
    by_cases hx : x.key = k
    · simp [hx] at h
    · rw [eraseKeyL_cons, if_neg hx, ih (by simpa [hx] using h)]

theorem lookupL_eraseKeyL_self {l : List CachedItem} {k : String} :
    lookupL (eraseKeyL l k) k = none := by
  induction l with
  | nil => rfl
  | cons x xs ih =>
    rw [eraseKeyL_cons]
    by_cases hx : x.key = k
    · rw [if_pos hx]
      exact ih
    · rw [if_neg hx, lookupL_cons, if_neg hx]
      exact ih

theorem lookupL_eraseKeyL_ne {l : List CachedItem} {k k' : String} (h : k' ≠ k) :
    lookupL (eraseKeyL l k) k' = lookupL l k' := by
  induction l with
  | nil => rfl
  | cons x xs ih =>
    rw [eraseKeyL_cons, lookupL_cons]
    by_cases hx : x.key = k
    · rw [if_pos hx, if_neg (by rw [hx]; exact fun hh => h hh.symm), ih]
    · rw [if_neg hx, lookupL_cons, ih]

theorem mem_eraseKeyL {l : List CachedItem} {k : String} {it : CachedItem}
    (hm : it ∈ l) (hk : it.key ≠ k) : it ∈ eraseKeyL l k := by
  simp only [eraseKeyL, List.mem_filter]
  exact ⟨hm, by simpa [keyIs] using hk⟩

theorem eraseKeyL_sublist {l : List CachedItem} {k : String} :
    (eraseKeyL l k).Sublist l :=
  List.filter_sublist l

theorem length_eraseKeyL_lt {l : List CachedItem} {k : String} {it : CachedItem}
    (h : lookupL l k = some it) : (eraseKeyL l k).length < l.length := by
  induction l with
  | nil => simp [lookupL_nil] at h
  | cons x xs ih =>
    rw [lookupL_cons] at h
    rw [eraseKeyL_cons]
    by_cases hx : x.key = k
    · rw [if_pos hx]
      exact Nat.lt_succ_of_le (eraseKeyL_sublist.length_le)
    · rw [if_neg hx] at h ⊢
      simpa using ih h

theorem keysOf_eraseKeyL_sublist {l : List CachedItem} {k : String} :
    (keysOf (eraseKeyL l k)).Sublist (keysOf l) :=
  eraseKeyL_sublist.map _

theorem nodup_keysOf_eraseKeyL {l : List CachedItem} {k : String}
    (h : (keysOf l).Nodup) : (keysOf (eraseKeyL l k)).Nodup :=
  h.sublist keysOf_eraseKeyL_sublist

theorem eq_of_mem_of_key_eq {l : List CachedItem} {e1 e2 : CachedItem}
    (hnd : (keysOf l).Nodup) (h1 : e1 ∈ l) (h2 : e2 ∈ l) (hk : e1.key = e2.key) :
    e1 = e2 := by
  induction l with
  | nil => cases h1
  | cons x xs ih =>
    rw [keysOf, List.map_cons, List.nodup_cons] at hnd
    rcases List.mem_cons.mp h1 with h1 | h1 <;>
      rcases List.mem_cons.mp h2 with h2 | h2
    · rw [h1, h2]
    · exfalso
      apply hnd.1
      rw [← h1, hk]
      exact List.mem_map_of_mem CachedItem.key h2
    · exfalso
      apply hnd.1
      rw [← h2, ← hk]
      exact List.mem_map_of_mem CachedItem.key h1
    · exact ih hnd.2 h1 h2

/-! ### Characterizations of `markResolved` and `fireCallbacks` -/

/-- The per-item action of `markResolved k`. -/
def resolveIfKey (k : String) (it : CachedItem) : CachedItem :=
  if keyIs k it then { it with isResolved := true } else it

/-- The cumulative per-item action of firing a list of `_markResolved`
reactions. -/
def resolveMark (cbs : List String) (it : CachedItem) : CachedItem :=
  if cbs.contains it.key then { it with isResolved := true } else it

theorem resolveIfKey_key {k : String} {it : CachedItem} :
    (resolveIfKey k it).key = it.key := by
  unfold resolveIfKey
  by_cases h : keyIs k it = true
  · rw [if_pos h]
  · rw [if_neg h]

theorem resolveMark_key {cbs : List String} {it : CachedItem} :
    (resolveMark cbs it).key = it.key := by
  unfold resolveMark
  by_cases h : cbs.contains it.key = true
  · rw [if_pos h]
  · rw [if_neg h]

theorem markResolved_eq (s : CacheState) (k : String) :
    markResolved s k = { s with cache := s.cache.map (resolveIfKey k) } := by
  unfold markResolved resolveIfKey
  rfl

theorem resolveMark_nil (it : CachedItem) : resolveMark [] it = it := by
  unfold resolveMark
  simp

theorem resolveMark_cons (c : String) (cs : List String) (it : CachedItem) :
    resolveMark cs (resolveIfKey c it) = resolveMark (c :: cs) it := by
  unfold resolveMark resolveIfKey keyIs
  by_cases h : it.key = c
  · by_cases h2 : cs.contains it.key = true <;> simp [h, h2]
  · have hb : (it.key == c) = false := by simpa using h
    by_cases h2 : cs.contains it.key = true <;> simp [h, hb, h2]

theorem fireCallbacks_eq (cbs : List String) (s : CacheState) :
    fireCallbacks s cbs = { s with cache := s.cache.map (resolveMark cbs) } := by
  induction cbs generalizing s with
  | nil =>
    show s = _
    have : s.cache.map (resolveMark []) = s.cache := by
      rw [List.map_congr_left (fun it _ => resolveMark_nil it)]
      exact List.map_id s.cache
    rw [this]
  | cons c cs ih =>
    show fireCallbacks (markResolved s c) cs = _
    rw [ih, markResolved_eq]
    have : (s.cache.map (resolveIfKey c)).map (resolveMark cs)
        = s.cache.map (resolveMark (c :: cs)) := by
      rw [List.map_map]
      exact List.map_congr_left (fun it _ => resolveMark_cons c cs it)
    simp only [this]

theorem lookupL_map_keyFix {f : CachedItem → CachedItem}
    (hf : ∀ it, (f it).key = it.key) (l : List CachedItem) (k : String) :
    lookupL (l.map f) k = (lookupL l k).map f := by
  induction l with
  | nil => rfl
  | cons x xs ih =>
    rw [List.map_cons, lookupL_cons, lookupL_cons, hf]
    by_cases h : x.key = k
    · rw [if_pos h, if_pos h]
      rfl
    · rw [if_neg h, if_neg h, ih]

theorem fireCallbacks_lookup (cbs : List String) (s : CacheState) (k : String) :
    (fireCallbacks s cbs).lookup k = (s.lookup k).map (resolveMark cbs) := by
  rw [fireCallbacks_eq]
  exact lookupL_map_keyFix (fun it => resolveMark_key) s.cache k

theorem resolveMark_of_contains {cbs : List String} {it : CachedItem}
    (h : cbs.contains it.key = true) :
    resolveMark cbs it = { it with isResolved := true } := by
  unfold resolveMark
  rw [if_pos h]

/-! ### Frame facts for the state operations -/

theorem startCleanup_cache (s : CacheState) : (startCleanup s).cache = s.cache := by
  unfold startCleanup
  by_cases h : s.cleanupTimer = false ∧ s.cleanupInterval ≠ 0
  · rw [if_pos h]
  · rw [if_neg h]

theorem startCleanup_timer (s : CacheState) :
    (startCleanup s).cleanupTimer = (s.cleanupTimer || decide (s.cleanupInterval ≠ 0)) := by
  unfold startCleanup
  by_cases ht : s.cleanupTimer = true
  · have : ¬(s.cleanupTimer = false ∧ s.cleanupInterval ≠ 0) := by
      rw [ht]
      rintro ⟨h, -⟩
      cases h
    rw [if_neg this, ht, Bool.true_or]
  · have ht' : s.cleanupTimer = false := by
      cases h : s.cleanupTimer
      · rfl
      · exact absurd h ht
    by_cases hi : s.cleanupInterval ≠ 0
    · rw [if_pos ⟨ht', hi⟩]
      simp [hi]
    · rw [if_neg (by rintro ⟨-, h⟩; exact hi h), ht']
      simp [hi]

theorem startCleanup_frame (s : CacheState) :
    (startCleanup s).ttl = s.ttl ∧ (startCleanup s).cleanupInterval = s.cleanupInterval ∧
    (startCleanup s).maxEntries = s.maxEntries ∧ (startCleanup s).proms = s.proms ∧
    (startCleanup s).invocations = s.invocations := by
  unfold startCleanup
  by_cases h : s.cleanupTimer = false ∧ s.cleanupInterval ≠ 0
  · rw [if_pos h]
    exact ⟨rfl, rfl, rfl, rfl, rfl⟩
  · rw [if_neg h]
    exact ⟨rfl, rfl, rfl, rfl, rfl⟩

theorem stopCleanupIfNeeded_cache (s : CacheState) :
    (stopCleanupIfNeeded s).cache = s.cache := by
  unfold stopCleanupIfNeeded
  by_cases h : s.cache.length = 0 ∧ s.cleanupTimer = true
  · rw [if_pos h]
  · rw [if_neg h]

theorem stopCleanupIfNeeded_timer (s : CacheState) :
    (stopCleanupIfNeeded s).cleanupTimer =
      (s.cleanupTimer && decide (s.cache.length ≠ 0)) := by
  unfold stopCleanupIfNeeded
  by_cases hl : s.cache.length = 0
  · by_cases ht : s.cleanupTimer = true
    · rw [if_pos ⟨hl, ht⟩]
      simp [hl]
    · rw [if_neg (by rintro ⟨-, h⟩; exact ht h)]
      have : s.cleanupTimer = false := by
        cases h : s.cleanupTimer
        · rfl
        · exact absurd h ht
      rw [this, Bool.false_and]
  · rw [if_neg (by rintro ⟨h, -⟩; exact hl h)]
    simp [hl]

theorem stopCleanupIfNeeded_frame (s : CacheState) :
    (stopCleanupIfNeeded s).ttl = s.ttl ∧
    (stopCleanupIfNeeded s).cleanupInterval = s.cleanupInterval ∧
    (stopCleanupIfNeeded s).maxEntries = s.maxEntries ∧
    (stopCleanupIfNeeded s).proms = s.proms ∧
    (stopCleanupIfNeeded s).invocations = s.invocations := by
  unfold stopCleanupIfNeeded
  by_cases h : s.cache.length = 0 ∧ s.cleanupTimer = true
  · rw [if_pos h]
    exact ⟨rfl, rfl, rfl, rfl, rfl⟩
  · rw [if_neg h]
    exact ⟨rfl, rfl, rfl, rfl, rfl⟩

/-! ### The eviction loop -/

theorem evictIfNeeded_none {s : CacheState} (h : s.maxEntries = none) :
    evictIfNeeded s = s := by
  unfold evictIfNeeded
  rw [h]

theorem findLRUCandidate_spec {s : CacheState} {k : String}
    (h : findLRUCandidate s = some k) :
    ∃ it ∈ s.cache, it.isResolved = true ∧ it.key = k := by
  unfold findLRUCandidate at h
  cases hf : s.cache.find? (fun it => it.isResolved) with
  | none => rw [hf] at h; cases h
  | some it =>
    rw [hf] at h
    refine ⟨it, List.mem_of_find?_eq_some hf, ?_, ?_⟩
    · exact List.find?_some hf
    · cases h
      rfl

theorem findLRUCandidate_none {s : CacheState} (h : findLRUCandidate s = none) :
    ∀ it ∈ s.cache, it.isResolved = false := by
  unfold findLRUCandidate at h
  cases hf : s.cache.find? (fun it => it.isResolved) with
  | none =>
    intro it hm
    have := List.find?_eq_none.mp hf it hm
    cases hr : it.isResolved
    · rfl
    · exact absurd hr this
  | some it => rw [hf] at h; cases h

theorem evictLoop_cache_sub (fuel m : Nat) (s : CacheState) :
    ∃ c, evictLoop fuel m s = { s with cache := c } ∧ c.Sublist s.cache := by
  induction fuel generalizing s with
  | zero => exact ⟨s.cache, rfl, List.Sublist.refl _⟩
  | succ fuel ih =>
    unfold evictLoop
    by_cases hm : m ≤ s.cache.length
    · rw [if_pos hm]
      cases hc : findLRUCandidate s with
      | none => exact ⟨s.cache, rfl, List.Sublist.refl _⟩
      | some k =>
        obtain ⟨c, heq, hsub⟩ := ih (s.deleteKey k)
        refine ⟨c, ?_, hsub.trans eraseKeyL_sublist⟩
        show evictLoop fuel m (s.deleteKey k) = _
        rw [heq]
        rfl
    · rw [if_neg hm]
      exact ⟨s.cache, rfl, List.Sublist.refl _⟩

theorem evictLoop_small {fuel m : Nat} {s : CacheState}
    (h : s.cache.length < m) : evictLoop fuel m s = s := by
  cases fuel with
  | zero => rfl
  | succ fuel =>
    unfold evictLoop
    rw [if_neg (by omega)]

theorem evictLoop_pending_preserved (fuel m : Nat) (s : CacheState)
    (hnd : (keysOf s.cache).Nodup) {e : CachedItem}
    (he : e ∈ s.cache) (hp : e.isResolved = false) :
    e ∈ (evictLoop fuel m s).cache := by
  induction fuel generalizing s with
  | zero => exact he
  | succ fuel ih =>
    unfold evictLoop
    by_cases hm : m ≤ s.cache.length
    · rw [if_pos hm]
      cases hc : findLRUCandidate s with
      | none => exact he
      | some k =>
        obtain ⟨it, hitm, hitres, hitk⟩ := findLRUCandidate_spec hc
        have hek : e.key ≠ k := by
          intro hk
          have : e = it := eq_of_mem_of_key_eq hnd he hitm (by rw [hk, hitk])
          rw [this, hitres] at hp
          cases hp
        exact ih (s.deleteKey k) (nodup_keysOf_eraseKeyL hnd) (mem_eraseKeyL he hek)
    · rw [if_neg hm]
      exact he

theorem evictLoop_post (fuel m : Nat) (s : CacheState)
    (h : s.cache.length ≤ fuel) :
    (evictLoop fuel m s).cache.length < m ∨
      ∀ it ∈ (evictLoop fuel m s).cache, it.isResolved = false := by
  induction fuel generalizing s with
  | zero =>
    have : s.cache = [] := List.length_eq_zero.mp (Nat.le_zero.mp h)
    right
    intro it hm
    rw [show evictLoop 0 m s = s from rfl, this] at hm
    cases hm
  | succ fuel ih =>
    unfold evictLoop
    by_cases hm : m ≤ s.cache.length
    · rw [if_pos hm]
      cases hc : findLRUCandidate s with
      | none => exact Or.inr (findLRUCandidate_none hc)
      | some k =>
        show (evictLoop fuel m (s.deleteKey k)).cache.length < m ∨ _
        apply ih
        obtain ⟨it, hitm, -, hitk⟩ := findLRUCandidate_spec hc
        have hne : lookupL s.cache k ≠ none := fun hnone =>
          (lookupL_eq_none_iff.mp hnone) it hitm hitk
        cases hl : lookupL s.cache k with
        | none => exact absurd hl hne
        | some it' =>
          have := length_eraseKeyL_lt hl
          show (eraseKeyL s.cache k).length ≤ fuel
          omega
    · rw [if_neg hm]
      exact Or.inl (by omega)

theorem stopCleanupIfNeeded_eq (s : CacheState) :
    stopCleanupIfNeeded s =
      { s with cleanupTimer := (s.cleanupTimer && decide (s.cache.length ≠ 0)) } := by
  cases s with
  | mk cache ttl ci mx tm pr inv =>
    unfold stopCleanupIfNeeded
    by_cases hl : cache.length = 0 <;> cases tm <;> simp [hl]

theorem startCleanup_eq (s : CacheState) :
    startCleanup s =
      { s with cleanupTimer := (s.cleanupTimer || decide (s.cleanupInterval ≠ 0)) } := by
  cases s with
  | mk cache ttl ci mx tm pr inv =>
    unfold startCleanup
    by_cases hi : ci = 0 <;> cases tm <;> simp [hi]

theorem evictIfNeeded_cache_sub (s : CacheState) :
    ∃ c tm, evictIfNeeded s = { s with cache := c, cleanupTimer := tm } ∧
      c.Sublist s.cache := by
  cases s with
  | mk cache ttl ci mx tm pr inv =>
    cases mx with
    | none => exact ⟨cache, tm, rfl, List.Sublist.refl _⟩
    | some m =>
      obtain ⟨c, heq, hsub⟩ :=
        evictLoop_cache_sub cache.length m (CacheState.mk cache ttl ci (some m) tm pr inv)
      refine ⟨c,
        ((evictLoop cache.length m (CacheState.mk cache ttl ci (some m) tm pr inv)).cleanupTimer
          && decide ((evictLoop cache.length m
            (CacheState.mk cache ttl ci (some m) tm pr inv)).cache.length ≠ 0)), ?_, hsub⟩
      show stopCleanupIfNeeded (evictLoop cache.length m _) = _
      rw [stopCleanupIfNeeded_eq]
      rw [heq]

theorem evictIfNeeded_lookup_none {s : CacheState} {k : String}
    (h : s.lookup k = none) : (evictIfNeeded s).lookup k = none := by
  obtain ⟨c, tm, heq, hsub⟩ := evictIfNeeded_cache_sub s
  rw [heq]
  show lookupL c k = none
  rw [lookupL_eq_none_iff]
  intro it hm
  exact (lookupL_eq_none_iff.mp h) it (hsub.mem hm)

theorem evictIfNeeded_timer_false {s : CacheState}
    (h : s.cleanupTimer = false) : (evictIfNeeded s).cleanupTimer = false := by
  unfold evictIfNeeded
  cases s.maxEntries with
  | none => exact h
  | some m =>
    rw [stopCleanupIfNeeded_timer]
    obtain ⟨c, heq, -⟩ := evictLoop_cache_sub s.cache.length m s
    rw [heq]
    show (s.cleanupTimer && _) = false
    rw [h, Bool.false_and]

/-! ### Characterizations of `_set` -/

theorem registerThen_cache (s : CacheState) (i : Nat) (k : String) :
    (registerThen s i k).cache = s.cache := rfl

theorem newItemOf_key (k : String) (v : PVal) (o : Option Nat) (d now : Nat) :
    (newItemOf k v o d now).key = k := rfl

theorem setImpl_cache (s : CacheState) (k : String) (v : PVal) (o : Option Nat)
    (now : Nat) :
    (setImpl s k v o now).cache =
      (if s.hasKey k = true then eraseKeyL s.cache k else (evictIfNeeded s).cache)
        ++ [newItemOf k v o s.ttl now] := by
  simp only [setImpl]
  rw [startCleanup_cache]
  cases v with
  | prom i =>
    by_cases hk : s.hasKey k = true
    · simp [hk, registerThen, CacheState.deleteKey]
    · simp [hk, registerThen]
  | val w =>
    by_cases hk : s.hasKey k = true
    · simp [hk, CacheState.deleteKey]
    · simp [hk]

theorem hasKey_false_lookup_none {s : CacheState} {k : String}
    (h : ¬ s.hasKey k = true) : s.lookup k = none := by
  unfold CacheState.hasKey at h
  cases hl : s.lookup k with
  | none => rfl
  | some it =>
    rw [hl] at h
    simp at h

theorem setImpl_base_lookup_none (s : CacheState) (k : String) :
    lookupL (if s.hasKey k = true then eraseKeyL s.cache k
      else (evictIfNeeded s).cache) k = none := by
  by_cases hk : s.hasKey k = true
  · rw [if_pos hk]
    exact lookupL_eraseKeyL_self
  · rw [if_neg hk]
    exact evictIfNeeded_lookup_none (hasKey_false_lookup_none hk)

theorem setImpl_lookup_self (s : CacheState) (k : String) (v : PVal) (o : Option Nat)
    (now : Nat) :
    (setImpl s k v o now).lookup k = some (newItemOf k v o s.ttl now) := by
  show lookupL (setImpl s k v o now).cache k = _
  rw [setImpl_cache, lookupL_append_of_none (setImpl_base_lookup_none s k),
    lookupL_cons, if_pos (newItemOf_key k v o s.ttl now)]

theorem setImpl_mem_overwrite {s : CacheState} {k : String} (v : PVal) (o : Option Nat)
    (now : Nat) (hk : s.hasKey k = true) {e : CachedItem} (he : e ∈ s.cache)
    (hek : e.key ≠ k) : e ∈ (setImpl s k v o now).cache := by
  rw [setImpl_cache, if_pos hk]
  exact List.mem_append_left _ (mem_eraseKeyL he hek)

theorem setImpl_mem_nomax {s : CacheState} {k : String} (v : PVal) (o : Option Nat)
    (now : Nat) (hmx : s.maxEntries = none) {e : CachedItem} (he : e ∈ s.cache)
    (hek : e.key ≠ k) : e ∈ (setImpl s k v o now).cache := by
  rw [setImpl_cache]
  by_cases hk : s.hasKey k = true
  · rw [if_pos hk]
    exact List.mem_append_left _ (mem_eraseKeyL he hek)
  · rw [if_neg hk, evictIfNeeded_none hmx]
    exact List.mem_append_left _ he

theorem setImpl_fields (s : CacheState) (k : String) (v : PVal) (o : Option Nat)
    (now : Nat) :
    (setImpl s k v o now).ttl = s.ttl ∧
    (setImpl s k v o now).cleanupInterval = s.cleanupInterval ∧
    (setImpl s k v o now).maxEntries = s.maxEntries ∧
    (setImpl s k v o now).invocations = s.invocations := by
  obtain ⟨c, tmE, heqE, -⟩ := evictIfNeeded_cache_sub s
  simp only [setImpl]
  rw [startCleanup_eq]
  cases v with
  | prom i =>
    by_cases hk : s.hasKey k = true
    · simp [hk, registerThen, CacheState.deleteKey]
    · simp [hk, heqE, registerThen]
  | val w =>
    by_cases hk : s.hasKey k = true
    · simp [hk, CacheState.deleteKey]
    · simp [hk, heqE]

theorem setImpl_timer (s : CacheState) (k : String) (v : PVal) (o : Option Nat)
    (now : Nat) :
    (setImpl s k v o now).cleanupTimer =
      ((if s.hasKey k = true then s.cleanupTimer else (evictIfNeeded s).cleanupTimer)
        || decide (s.cleanupInterval ≠ 0)) := by
  obtain ⟨c, tmE, heqE, -⟩ := evictIfNeeded_cache_sub s
  simp only [setImpl]
  rw [startCleanup_eq]
  cases v with
  | prom i =>
    by_cases hk : s.hasKey k = true
    · simp [hk, registerThen, CacheState.deleteKey]
    · simp [hk, heqE, registerThen]
  | val w =>
    by_cases hk : s.hasKey k = true
    · simp [hk, CacheState.deleteKey]
    · simp [hk, heqE]

theorem setImpl_proms_prom (s : CacheState) (k : String) (i : Nat) (o : Option Nat)
    (now : Nat) :
    (setImpl s k (.prom i) o now).proms =
      updateAt s.proms i (fun r => { r with callbacks := r.callbacks ++ [k] }) := by
  obtain ⟨c, tmE, heqE, -⟩ := evictIfNeeded_cache_sub s
  simp only [setImpl]
  rw [startCleanup_eq]
  by_cases hk : s.hasKey k = true
  · simp [hk, registerThen, CacheState.deleteKey]
  · simp [hk, heqE, registerThen]

theorem setImpl_proms_val (s : CacheState) (k : String) (w : Int) (o : Option Nat)
    (now : Nat) : (setImpl s k (.val w) o now).proms = s.proms := by
  obtain ⟨c, tmE, heqE, -⟩ := evictIfNeeded_cache_sub s
  simp only [setImpl]
  rw [startCleanup_eq]
  by_cases hk : s.hasKey k = true
  · simp [hk, CacheState.deleteKey]
  · simp [hk, heqE]

/-! ### Characterization of the housekeeping sweep -/

/-- The keys the sweep deletes: keys of the entries expired at `now`. -/
def expiredKeys (l : List CachedItem) (now : Nat) : List String :=
  (l.filter (fun it => it.expiresAt.leNow now)).map (·.key)

theorem expiredKeys_cons_pos {it : CachedItem} {rest : List CachedItem} {now : Nat}
    (h : it.expiresAt.leNow now = true) :
    expiredKeys (it :: rest) now = it.key :: expiredKeys rest now := by
  simp [expiredKeys, List.filter, h]

theorem expiredKeys_cons_neg {it : CachedItem} {rest : List CachedItem} {now : Nat}
    (h : ¬ it.expiresAt.leNow now = true) :
    expiredKeys (it :: rest) now = expiredKeys rest now := by
  have hb : it.expiresAt.leNow now = false := by
    cases hh : it.expiresAt.leNow now
    · rfl
    · exact absurd hh h
  simp [expiredKeys, List.filter, hb]

theorem hkFold_eq (now : Nat) (l : List CachedItem) (a : CacheState) :
    (l.foldl (fun acc it =>
        if it.expiresAt.leNow now then acc.deleteKey it.key else acc) a)
      = { a with cache :=
          a.cache.filter (fun e => !(expiredKeys l now).contains e.key) } := by
  induction l generalizing a with
  | nil =>
    have : a.cache.filter (fun e => !(expiredKeys [] now).contains e.key) = a.cache := by
      apply List.filter_eq_self.mpr
      intro e hm
      simp [expiredKeys]
    rw [List.foldl_nil, this]
  | cons it rest ih =>
    by_cases hx : it.expiresAt.leNow now = true
    · rw [List.foldl_cons, if_pos hx, ih]
      have hcache : List.filter (fun e => !(expiredKeys rest now).contains e.key)
            (eraseKeyL a.cache it.key)
          = List.filter (fun e => !(expiredKeys (it :: rest) now).contains e.key)
            a.cache := by
        show (List.filter _ (List.filter _ a.cache)) = _
        rw [List.filter_filter, expiredKeys_cons_pos hx]
        apply List.filter_congr
        intro e hm
        rw [List.contains_cons, Bool.not_or, Bool.and_comm]
        rfl
      dsimp only [CacheState.deleteKey]
      rw [hcache]
    · rw [List.foldl_cons, if_neg hx, ih, expiredKeys_cons_neg hx]

theorem housekeeping_eq (s : CacheState) (now : Nat) :
    housekeeping s now = { s with cache :=
      (s.cache.filter (fun e => !(expiredKeys s.cache now).contains e.key)) } :=
  hkFold_eq now s.cache s

theorem contains_expiredKeys {l : List CachedItem} {now : Nat} {e : CachedItem}
    (hnd : (keysOf l).Nodup) (he : e ∈ l) :
    (expiredKeys l now).contains e.key = e.expiresAt.leNow now := by
  cases hx : e.expiresAt.leNow now with
  | true =>
    have : e.key ∈ expiredKeys l now :=
      List.mem_map_of_mem _ (List.mem_filter.mpr ⟨he, hx⟩)
    simpa using this
  | false =>
    cases hc : (expiredKeys l now).contains e.key with
    | false => rfl
    | true =>
      exfalso
      have : e.key ∈ expiredKeys l now := by simpa using hc
      obtain ⟨e', he'mem, he'key⟩ := List.mem_map.mp this
      have he'l : e' ∈ l := (List.mem_filter.mp he'mem).1
      have he'exp : e'.expiresAt.leNow now = true := (List.mem_filter.mp he'mem).2
      have : e' = e := eq_of_mem_of_key_eq hnd he'l he he'key
      rw [this, hx] at he'exp
      cases he'exp

theorem housekeeping_cache (s : CacheState) (now : Nat)
    (hnd : (keysOf s.cache).Nodup) :
    (housekeeping s now).cache =
      s.cache.filter (fun e => !e.expiresAt.leNow now) := by
  rw [housekeeping_eq]
  show List.filter _ s.cache = _
  apply List.filter_congr
  intro e hm
  rw [contains_expiredKeys hnd hm]

/-! ### The synchronous phase of `get` and `moveToEnd` -/

theorem getSync_hit {s : CacheState} {k : String} {it : CachedItem} {now : Nat}
    (h : s.lookup k = some it) (hgt : it.expiresAt.gtNow now = true)
    (f : Fetch) (o : Option Nat) :
    getSync s k f o now = (it.promise, moveToEnd s k it) := by
  unfold getSync
  rw [h]
  simp [hgt]

theorem getSync_missPath {s : CacheState} {k : String} {now : Nat}
    (h : aliveAt s k now = false) (f : Fetch) (o : Option Nat) :
    getSync s k f o now = getMiss s k f o now := by
  unfold getSync
  unfold aliveAt at h
  cases hl : s.lookup k with
  | none => rfl
  | some it =>
    rw [hl] at h
    have hgt : it.expiresAt.gtNow now = false := h
    simp [hgt]

theorem moveToEnd_lookup_self {s : CacheState} {k : String} {it : CachedItem}
    (hk : it.key = k) : (moveToEnd s k it).lookup k = some it := by
  show lookupL (eraseKeyL s.cache k ++ [it]) k = some it
  rw [lookupL_append_of_none lookupL_eraseKeyL_self, lookupL_cons, if_pos hk]

theorem moveToEnd_frame (s : CacheState) (k : String) (it : CachedItem) :
    (moveToEnd s k it).ttl = s.ttl ∧
    (moveToEnd s k it).cleanupInterval = s.cleanupInterval ∧
    (moveToEnd s k it).maxEntries = s.maxEntries ∧
    (moveToEnd s k it).cleanupTimer = s.cleanupTimer ∧
    (moveToEnd s k it).proms = s.proms ∧
    (moveToEnd s k it).invocations = s.invocations :=
  ⟨rfl, rfl, rfl, rfl, rfl, rfl⟩

/-! ### `updateAt`, `settle` and the promise table -/

theorem updateAt_length {α : Type} (l : List α) (i : Nat) (f : α → α) :
    (updateAt l i f).length = l.length := by
  induction l generalizing i with
  | nil => rfl
  | cons x xs ih =>
    cases i with
    | zero => rfl
    | succ j =>
      show (x :: updateAt xs j f).length = (x :: xs).length
      simp [ih]

theorem updateAt_get?_self {α : Type} {l : List α} {i : Nat} (f : α → α) :
    (updateAt l i f).get? i = (l.get? i).map f := by
  induction l generalizing i with
  | nil => cases i <;> rfl
  | cons x xs ih =>
    cases i with
    | zero => rfl
    | succ j =>
      show (x :: updateAt xs j f).get? (j + 1) = _
      simp only [List.get?]
      exact ih

theorem updateAt_get?_ne {α : Type} {l : List α} {i j : Nat} (f : α → α)
    (h : i ≠ j) : (updateAt l i f).get? j = l.get? j := by
  induction l generalizing i j with
  | nil => cases i <;> rfl
  | cons x xs ih =>
    cases i with
    | zero =>
      cases j with
      | zero => exact absurd rfl h
      | succ j' => rfl
    | succ i' =>
      cases j with
      | zero => rfl
      | succ j' =>
        show (x :: updateAt xs i' f).get? (j' + 1) = _
        simp only [List.get?]
        exact ih (fun hh => h (by rw [hh]))

theorem fireCallbacks_proms (cbs : List String) (s : CacheState) :
    (fireCallbacks s cbs).proms = s.proms := by
  rw [fireCallbacks_eq]

theorem fireCallbacks_frame (cbs : List String) (s : CacheState) :
    (fireCallbacks s cbs).ttl = s.ttl ∧
    (fireCallbacks s cbs).cleanupInterval = s.cleanupInterval ∧
    (fireCallbacks s cbs).maxEntries = s.maxEntries ∧
    (fireCallbacks s cbs).cleanupTimer = s.cleanupTimer ∧
    (fireCallbacks s cbs).invocations = s.invocations := by
  rw [fireCallbacks_eq]
  exact ⟨rfl, rfl, rfl, rfl, rfl⟩

theorem fireCallbacks_cache_length (cbs : List String) (s : CacheState) :
    (fireCallbacks s cbs).cache.length = s.cache.length := by
  rw [fireCallbacks_eq]
  exact List.length_map _ _

theorem settle_of_pending {s : CacheState} {i : Nat} {r : PromiseRec}
    (h : s.proms.get? i = some r) (hp : r.status = .pending) (st : PStatus) :
    settle s i st = fireCallbacks
      { s with proms := (updateAt s.proms i
          (fun q => { q with status := st, callbacks := [] })) }
      r.callbacks := by
  unfold settle
  simp only [h]
  rw [if_pos hp]

theorem settle_promStatus_self {s : CacheState} {i : Nat} {r : PromiseRec}
    (h : s.proms.get? i = some r) (hp : r.status = .pending) (st : PStatus) :
    (settle s i st).promStatus i = some st := by
  rw [settle_of_pending h hp st]
  show ((fireCallbacks _ _).proms.get? i).map _ = _
  rw [fireCallbacks_proms]
  show ((updateAt s.proms i _).get? i).map _ = _
  rw [updateAt_get?_self, h]
  rfl

theorem settle_promStatus_ne {s : CacheState} {i j : Nat} (st : PStatus)
    (hne : i ≠ j) : (settle s i st).promStatus j = s.promStatus j := by
  cases h : s.proms.get? i with
  | none =>
    unfold settle
    simp only [h]
  | some r =>
    by_cases hp : r.status = .pending
    · rw [settle_of_pending h hp st]
      show ((fireCallbacks _ _).proms.get? j).map _ = _
      rw [fireCallbacks_proms]
      show ((updateAt s.proms i _).get? j).map _ = _
      rw [updateAt_get?_ne _ hne]
      rfl
    · unfold settle
      simp only [h]
      rw [if_neg hp]

theorem settle_lookup {s : CacheState} {i : Nat} {r : PromiseRec}
    (h : s.proms.get? i = some r) (hp : r.status = .pending) (st : PStatus)
    (k : String) :
    (settle s i st).lookup k = (s.lookup k).map (resolveMark r.callbacks) := by
  rw [settle_of_pending h hp st, fireCallbacks_lookup]
  rfl

theorem lookupL_filter {p : CachedItem → Bool} {l : List CachedItem} {k : String}
    {e : CachedItem} (h : lookupL l k = some e) (hp : p e = true) :
    lookupL (l.filter p) k = some e := by
  induction l with
  | nil => simp [lookupL_nil] at h
  | cons x xs ih =>
    rw [lookupL_cons] at h
    by_cases hx : x.key = k
    · rw [if_pos hx] at h
      cases h
      rw [List.filter_cons, if_pos hp, lookupL_cons, if_pos hx]
    · rw [if_neg hx] at h
      rw [List.filter_cons]
      by_cases hpx : p x = true
      · rw [if_pos hpx, lookupL_cons, if_neg hx]
        exact ih h
      · rw [if_neg hpx]
        exact ih h

/-! ## Claim C2: pending entries are never evicted by the LRU scan

The protection the code provides is flag-based, not settlement-based:
`_findLRUCandidate` tests only `item.isResolved`, and a stale
`_markResolved` reaction — registered by `_set` on a promise whose entry
was later overwritten — flips that flag on the replacement entry while
the replacement's own stored promise is still pending.  The scan then
evicts an entry whose underlying computation has not settled, refuting
the claim as stated. -/

/-- C2 counterexample: with `maxEntries = 1`, after
`set("a", p0); set("a", p1); p0 fulfils`, the stale `_markResolved("a")`
reaction registered on `p0` marks the replacement entry — which stores
the still-pending `p1` — as resolved; the eviction scan then selects
`"a"`, and the next insertion (`set("b", 9)`) evicts it while `p1` is
still pending, so the scan removed an entry whose underlying computation
had not yet settled. -/
theorem C2_pending_scan_evicts_cex :
    ((settle (setOp (setOp (CacheState.mk [] 0 0 (some 1) false
        [PromiseRec.mk .pending [], PromiseRec.mk .pending []] 0)
        "a" (.prom 0) none 0) "a" (.prom 1) none 0) 0 (.fulfilled 7)).lookup "a").map
        (fun it => it.promise) = some (.prom 1) ∧
    ((settle (setOp (setOp (CacheState.mk [] 0 0 (some 1) false
        [PromiseRec.mk .pending [], PromiseRec.mk .pending []] 0)
        "a" (.prom 0) none 0) "a" (.prom 1) none 0) 0 (.fulfilled 7)).lookup "a").map
        (fun it => it.isResolved) = some true ∧
    (settle (setOp (setOp (CacheState.mk [] 0 0 (some 1) false
        [PromiseRec.mk .pending [], PromiseRec.mk .pending []] 0)
        "a" (.prom 0) none 0) "a" (.prom 1) none 0) 0 (.fulfilled 7)).promStatus 1
      = some .pending ∧
    findLRUCandidate (settle (setOp (setOp (CacheState.mk [] 0 0 (some 1) false
        [PromiseRec.mk .pending [], PromiseRec.mk .pending []] 0)
        "a" (.prom 0) none 0) "a" (.prom 1) none 0) 0 (.fulfilled 7)) = some "a" ∧
    (setOp (settle (setOp (setOp (CacheState.mk [] 0 0 (some 1) false
        [PromiseRec.mk .pending [], PromiseRec.mk .pending []] 0)
        "a" (.prom 0) none 0) "a" (.prom 1) none 0) 0 (.fulfilled 7))
        "b" (.val 9) none 0).hasKey "a" = false ∧
    (setOp (settle (setOp (setOp (CacheState.mk [] 0 0 (some 1) false
        [PromiseRec.mk .pending [], PromiseRec.mk .pending []] 0)
        "a" (.prom 0) none 0) "a" (.prom 1) none 0) 0 (.fulfilled 7))
        "b" (.val 9) none 0).promStatus 1 = some .pending := by
  decide

/-- C2 (amended): the eviction scan (`_findLRUCandidate`) only ever
selects an entry with `isResolved = true`, and `_evictIfNeeded`
preserves every entry whose `isResolved` flag is `false` — at or over
capacity alike.  The protection is over the flag, not over settlement of
the stored promise: the flag can be stale-set on an entry whose own
promise is still pending (see the counterexample), and such an entry is
evictable.  States are taken with the keys-uniqueness invariant every
reachable `Map`-backed state satisfies. -/
theorem C2_pending_protected (s : CacheState) (hnd : (keysOf s.cache).Nodup) :
    (∀ k, findLRUCandidate s = some k →
      ∃ it ∈ s.cache, it.isResolved = true ∧ it.key = k) ∧
    (∀ e ∈ s.cache, e.isResolved = false → e ∈ (evictIfNeeded s).cache) := by
  refine ⟨fun k h => findLRUCandidate_spec h, fun e he hp => ?_⟩
  unfold evictIfNeeded
  cases hmx : s.maxEntries with
  | none => exact he
  | some m =>
    rw [stopCleanupIfNeeded_cache]
    exact evictLoop_pending_preserved _ m s hnd he hp

/-- Witness for C2: a pending LRU-position entry in a cache at capacity
(`maxEntries = 1`) survives `_evictIfNeeded`. -/
theorem C2_pending_protected_witness :
    (keysOf (CacheState.mk [CachedItem.mk "p" (.prom 0) (.fin 5) false]
        5 0 (some 1) false [PromiseRec.mk .pending []] 0).cache).Nodup ∧
    ((∀ k, findLRUCandidate (CacheState.mk [CachedItem.mk "p" (.prom 0) (.fin 5) false]
        5 0 (some 1) false [PromiseRec.mk .pending []] 0) = some k →
      ∃ it ∈ (CacheState.mk [CachedItem.mk "p" (.prom 0) (.fin 5) false]
        5 0 (some 1) false [PromiseRec.mk .pending []] 0).cache,
        it.isResolved = true ∧ it.key = k) ∧
    (∀ e ∈ (CacheState.mk [CachedItem.mk "p" (.prom 0) (.fin 5) false]
        5 0 (some 1) false [PromiseRec.mk .pending []] 0).cache,
      e.isResolved = false →
      e ∈ (evictIfNeeded (CacheState.mk [CachedItem.mk "p" (.prom 0) (.fin 5) false]
        5 0 (some 1) false [PromiseRec.mk .pending []] 0)).cache)) :=
  ⟨by decide, C2_pending_protected _ (by decide)⟩

/-! ## Claim C9: the housekeeping sweep removes exactly the expired entries -/

/-- C9: a housekeeping tick leaves the cache equal to the filter of the
previous cache by non-expiry: every entry with `expiresAt <= now` is
removed — resolved or pending alike — and every other entry survives
with all fields and the relative recency order unchanged. -/
theorem C9_housekeeping_filter (s : CacheState) (now : Nat)
    (hnd : (keysOf s.cache).Nodup) :
    (housekeepingTick s now).cache
        = s.cache.filter (fun e => !e.expiresAt.leNow now) ∧
    (∀ e ∈ s.cache, e.expiresAt.leNow now = true →
        (housekeepingTick s now).lookup e.key = none) ∧
    (∀ e ∈ s.cache, e.expiresAt.leNow now = false →
        e ∈ (housekeepingTick s now).cache) := by
  have hc : (housekeepingTick s now).cache
      = s.cache.filter (fun e => !e.expiresAt.leNow now) := by
    unfold housekeepingTick
    rw [stopCleanupIfNeeded_cache, housekeeping_cache s now hnd]
  refine ⟨hc, ?_, ?_⟩
  · intro e he hexp
    show lookupL (housekeepingTick s now).cache e.key = none
    rw [hc, lookupL_eq_none_iff]
    intro it hit hkey
    have hitmem : it ∈ s.cache := (List.mem_filter.mp hit).1
    have hlive : (!it.expiresAt.leNow now) = true := (List.mem_filter.mp hit).2
    have heq : it = e := eq_of_mem_of_key_eq hnd hitmem he hkey
    rw [heq, hexp] at hlive
    exact absurd hlive (by decide)
  · intro e he hlive
    rw [hc]
    refine List.mem_filter.mpr ⟨he, ?_⟩
    rw [hlive]
    rfl

/-- Witness for C9: a tick on a cache holding an expired resolved entry,
an expired pending entry and a live entry removes exactly the first two. -/
theorem C9_housekeeping_filter_witness :
    (keysOf (CacheState.mk [CachedItem.mk "a" (.val 1) (.fin 3) true,
        CachedItem.mk "b" (.prom 0) (.fin 4) false,
        CachedItem.mk "c" (.val 2) (.fin 9) true]
        5 1 none true [PromiseRec.mk .pending []] 0).cache).Nodup ∧
    ((housekeepingTick (CacheState.mk [CachedItem.mk "a" (.val 1) (.fin 3) true,
        CachedItem.mk "b" (.prom 0) (.fin 4) false,
        CachedItem.mk "c" (.val 2) (.fin 9) true]
        5 1 none true [PromiseRec.mk .pending []] 0) 6).cache
        = (CacheState.mk [CachedItem.mk "a" (.val 1) (.fin 3) true,
        CachedItem.mk "b" (.prom 0) (.fin 4) false,
        CachedItem.mk "c" (.val 2) (.fin 9) true]
        5 1 none true [PromiseRec.mk .pending []] 0).cache.filter
          (fun e => !e.expiresAt.leNow 6) ∧
    (∀ e ∈ (CacheState.mk [CachedItem.mk "a" (.val 1) (.fin 3) true,
        CachedItem.mk "b" (.prom 0) (.fin 4) false,
        CachedItem.mk "c" (.val 2) (.fin 9) true]
        5 1 none true [PromiseRec.mk .pending []] 0).cache,
      e.expiresAt.leNow 6 = true →
      (housekeepingTick (CacheState.mk [CachedItem.mk "a" (.val 1) (.fin 3) true,
        CachedItem.mk "b" (.prom 0) (.fin 4) false,
        CachedItem.mk "c" (.val 2) (.fin 9) true]
        5 1 none true [PromiseRec.mk .pending []] 0) 6).lookup e.key = none) ∧
    (∀ e ∈ (CacheState.mk [CachedItem.mk "a" (.val 1) (.fin 3) true,
        CachedItem.mk "b" (.prom 0) (.fin 4) false,
        CachedItem.mk "c" (.val 2) (.fin 9) true]
        5 1 none true [PromiseRec.mk .pending []] 0).cache,
      e.expiresAt.leNow 6 = false →
      e ∈ (housekeepingTick (CacheState.mk [CachedItem.mk "a" (.val 1) (.fin 3) true,
        CachedItem.mk "b" (.prom 0) (.fin 4) false,
        CachedItem.mk "c" (.val 2) (.fin 9) true]
        5 1 none true [PromiseRec.mk .pending []] 0) 6).cache)) :=
  ⟨by decide, C9_housekeeping_filter _ 6 (by decide)⟩

/-! ## Claim C8: effective TTL 0 means never expires -/

/-- C8: `_set` under an effective TTL of 0 (per-call override 0, or no
override with engine default 0) stores `expiresAt = +Infinity`; an
entry with infinite expiry survives every housekeeping tick unchanged,
and at every later time a `get` on its key is a hit: it returns the
stored handle, keeps the entry (merely moving it to the recency tail),
and performs no fetcher invocation. -/
theorem C8_ttl_zero_permanent (s : CacheState) (k : String) (v : PVal)
    (o : Option Nat) (now : Nat) (h0 : ttlNullish o s.ttl = 0) :
    ((setImpl s k v o now).lookup k
        = some (CachedItem.mk k v .inf (!isPromiseV v))) ∧
    (∀ (s' : CacheState) (e : CachedItem) (now' : Nat),
      (keysOf s'.cache).Nodup → s'.lookup k = some e → e.expiresAt = .inf →
      (housekeepingTick s' now').lookup k = some e) ∧
    (∀ (s' : CacheState) (e : CachedItem) (now' : Nat) (f : Fetch) (o' : Option Nat),
      s'.lookup k = some e → e.expiresAt = .inf →
      getSync s' k f o' now' = (e.promise, moveToEnd s' k e) ∧
      (moveToEnd s' k e).lookup k = some e ∧
      (moveToEnd s' k e).invocations = s'.invocations) := by
  refine ⟨?_, ?_, ?_⟩
  · rw [setImpl_lookup_self]
    unfold newItemOf computeExpiresAt
    rw [if_pos h0]
  · intro s' e now' hnd hl hinf
    show lookupL (housekeepingTick s' now').cache k = some e
    unfold housekeepingTick
    rw [stopCleanupIfNeeded_cache, housekeeping_cache s' now' hnd]
    refine lookupL_filter hl ?_
    rw [hinf]
    rfl
  · intro s' e now' f o' hl hinf
    have hgt : e.expiresAt.gtNow now' = true := by
      rw [hinf]
      rfl
    exact ⟨getSync_hit hl hgt f o', moveToEnd_lookup_self (lookupL_key hl), rfl⟩

/-- Witness for C8: a `set` with TTL override 0 stores an infinite-expiry
entry, which survives a tick a billion time units later and is still a
hit for `get`. -/
theorem C8_ttl_zero_permanent_witness :
    ttlNullish (some 0) (CacheState.mk [] 5 1 none false [] 0).ttl = 0 ∧
    (((setImpl (CacheState.mk [] 5 1 none false [] 0) "p" (.val 7) (some 0) 10).lookup "p"
        = some (CachedItem.mk "p" (.val 7) .inf (!isPromiseV (.val 7)))) ∧
    (∀ (s' : CacheState) (e : CachedItem) (now' : Nat),
      (keysOf s'.cache).Nodup → s'.lookup "p" = some e → e.expiresAt = .inf →
      (housekeepingTick s' now').lookup "p" = some e) ∧
    (∀ (s' : CacheState) (e : CachedItem) (now' : Nat) (f : Fetch) (o' : Option Nat),
      s'.lookup "p" = some e → e.expiresAt = .inf →
      getSync s' "p" f o' now' = (e.promise, moveToEnd s' "p" e) ∧
      (moveToEnd s' "p" e).lookup "p" = some e ∧
      (moveToEnd s' "p" e).invocations = s'.invocations)) :=
  ⟨by decide, C8_ttl_zero_permanent _ "p" (.val 7) (some 0) 10 (by decide)⟩

/-! ## Claim C4: removal of rejected entries -/

theorem hasKey_deleteKey_self (s : CacheState) (k : String) :
    (s.deleteKey k).hasKey k = false := by
  show (lookupL (eraseKeyL s.cache k) k).isSome = false
  rw [lookupL_eraseKeyL_self]
  rfl

theorem hasKey_of_lookup_some {s : CacheState} {k : String} {e : CachedItem}
    (h : s.lookup k = some e) : s.hasKey k = true := by
  unfold CacheState.hasKey
  rw [h]
  rfl

/-- C4 counterexample: an entry written by the public `set` with a
caller-owned pending promise, never awaited through any `get`, is still
in the cache after the promise rejects — the rejection handler only
marks it resolved, it does not delete it. -/
theorem C4_rejected_set_retained_cex :
    (settle (setOp (CacheState.mk [] 5 0 none false [PromiseRec.mk .pending []] 0)
        "a" (.prom 0) none 0) 0 (.rejected 7)).hasKey "a" = true ∧
    ((settle (setOp (CacheState.mk [] 5 0 none false [PromiseRec.mk .pending []] 0)
        "a" (.prom 0) none 0) 0 (.rejected 7)).lookup "a").map (·.isResolved)
      = some true := by
  decide

/-- C4 (amended): when the stored promise of an entry written by `set`
rejects and no `get` call is awaiting it, the entry is retained and
merely marked resolved (so it becomes LRU-evictable); the entry is
removed upon rejection only through the path in which a `get` awaits
the handle — that path surfaces the original rejection reason verbatim
and deletes the entry. -/
theorem awaitResult_prom (s : CacheState) (i : Nat) :
    awaitResult s (.prom i) = (match s.promStatus i with
      | some .pending => none
      | some (.fulfilled v) => some (.ok v)
      | some (.rejected e) => some (.error e)
      | none => none) := rfl

theorem C4_rejection_removal_only_via_get (s : CacheState) (k : String) (i : Nat)
    (o : Option Nat) (now : Nat) (e : Int) (r : PromiseRec)
    (hi : s.proms.get? i = some r) (hp : r.status = .pending) :
    (settle (setOp s k (.prom i) o now) i (.rejected e)).lookup k
        = some (CachedItem.mk k (.prom i) (computeExpiresAt o s.ttl now) true) ∧
    (settle (setOp s k (.prom i) o now) i (.rejected e)).hasKey k = true ∧
    awaitResult (settle (setOp s k (.prom i) o now) i (.rejected e)) (.prom i)
        = some (.error e) ∧
    (handleSettled (settle (setOp s k (.prom i) o now) i (.rejected e)) k
        (.error e)).2 = .error e ∧
    (handleSettled (settle (setOp s k (.prom i) o now) i (.rejected e)) k
        (.error e)).1.hasKey k = false := by
  have hi1 : (setOp s k (.prom i) o now).proms.get? i
      = some (PromiseRec.mk r.status (r.callbacks ++ [k])) := by
    show (setImpl s k (.prom i) o now).proms.get? i = _
    rw [setImpl_proms_prom, updateAt_get?_self, hi]
    rfl
  have hp1 : (PromiseRec.mk r.status (r.callbacks ++ [k])).status = .pending := hp
  have hlook : (settle (setOp s k (.prom i) o now) i (.rejected e)).lookup k
      = some (CachedItem.mk k (.prom i) (computeExpiresAt o s.ttl now) true) := by
    rw [settle_lookup hi1 hp1 (.rejected e) k]
    show ((setImpl s k (.prom i) o now).lookup k).map _ = _
    rw [setImpl_lookup_self]
    show some (resolveMark (r.callbacks ++ [k]) (newItemOf k (.prom i) o s.ttl now)) = _
    rw [resolveMark_of_contains (by simp [newItemOf])]
    rfl
  refine ⟨hlook, hasKey_of_lookup_some hlook, ?_, rfl, ?_⟩
  · have hstat := settle_promStatus_self hi1 hp1 (.rejected e)
    rw [awaitResult_prom, hstat]
  · show ((settle (setOp s k (.prom i) o now) i (.rejected e)).deleteKey k).hasKey k
      = false
    exact hasKey_deleteKey_self _ k

/-- Witness for C4's amended statement at a concrete state: one
caller-owned pending promise, stored under `"a"` at time 0. -/
theorem C4_rejection_removal_only_via_get_witness :
    (CacheState.mk [] 5 0 none false [PromiseRec.mk .pending []] 0).proms.get? 0
      = some (PromiseRec.mk .pending []) ∧
    ((settle (setOp (CacheState.mk [] 5 0 none false [PromiseRec.mk .pending []] 0)
        "a" (.prom 0) none 0) 0 (.rejected 7)).lookup "a"
        = some (CachedItem.mk "a" (.prom 0)
            (computeExpiresAt none (CacheState.mk [] 5 0 none false
              [PromiseRec.mk .pending []] 0).ttl 0) true) ∧
    (settle (setOp (CacheState.mk [] 5 0 none false [PromiseRec.mk .pending []] 0)
        "a" (.prom 0) none 0) 0 (.rejected 7)).hasKey "a" = true ∧
    awaitResult (settle (setOp (CacheState.mk [] 5 0 none false
        [PromiseRec.mk .pending []] 0) "a" (.prom 0) none 0) 0 (.rejected 7)) (.prom 0)
        = some (.error 7) ∧
    (handleSettled (settle (setOp (CacheState.mk [] 5 0 none false
        [PromiseRec.mk .pending []] 0) "a" (.prom 0) none 0) 0 (.rejected 7)) "a"
        (.error 7)).2 = .error 7 ∧
    (handleSettled (settle (setOp (CacheState.mk [] 5 0 none false
        [PromiseRec.mk .pending []] 0) "a" (.prom 0) none 0) 0 (.rejected 7)) "a"
        (.error 7)).1.hasKey "a" = false) :=
  ⟨by decide, C4_rejection_removal_only_via_get _ "a" 0 none 0 7
    (PromiseRec.mk .pending []) (by decide) (by decide)⟩

/-! ## Claim C10: a stale `_markResolved` callback marks the replacement entry -/

theorem get?_some_lt {α : Type} {l : List α} {i : Nat} {a : α}
    (h : l.get? i = some a) : i < l.length := by
  by_contra hcon
  rw [List.get?_eq_none.mpr (by omega)] at h
  cases h

/-- The state effect of `_fetchValue` invoking a fetcher that returns a
freshly allocated promise with status `stNew`. -/
def fetchFreshState (s : CacheState) (stNew : PStatus) : CacheState :=
  { s with
    proms := s.proms ++ [PromiseRec.mk stNew []]
    invocations := s.invocations + 1 }

/-- `getMiss` with a fetcher function returning a fresh promise:
the invocation allocates the promise and `_set` stores it. -/
theorem getMiss_fnNew (s : CacheState) (k : String) (stNew : PStatus)
    (o : Option Nat) (now : Nat) :
    getMiss s k (.fn (.newPromise stNew)) o now
      = (.prom s.proms.length,
         setImpl (fetchFreshState s stNew) k (.prom s.proms.length) o now) := rfl

theorem setOp_eq (s : CacheState) (k : String) (v : PVal) (o : Option Nat)
    (now : Nat) : setOp s k v o now = setImpl s k v o now := rfl

/-- Settling a promise whose callback list names `k` marks the current
entry of `k` resolved in place. -/
theorem settle_marks_current {s2 : CacheState} {k : String} {i : Nat}
    {cbs : List String} (st : PStatus)
    (hget : s2.proms.get? i = some (PromiseRec.mk .pending cbs))
    (hcb : cbs.contains k = true)
    {item : CachedItem} (hlook : s2.lookup k = some item) :
    (settle s2 i st).lookup k = some { item with isResolved := true } := by
  rw [settle_lookup hget rfl st k, hlook]
  show some (resolveMark cbs item) = _
  rw [resolveMark_of_contains (by rw [lookupL_key hlook]; exact hcb)]

/-- C10: if an entry holding pending promise `i` is overwritten — by
`set` with another pending promise `j`, or by a `get` refreshing the
entry once expired with a fresh pending computation — then when promise
`i` later settles (with any non-pending outcome), its `_markResolved(key)`
reaction flips `isResolved` on the key's *current* replacement entry,
making that entry LRU-evictable although its own stored promise is
still pending. -/
theorem C10_stale_resolution_marks_replacement (s : CacheState) (k : String)
    (i j : Nat) (o o' : Option Nat) (now now' : Nat) (ri rj : PromiseRec)
    (hi : s.proms.get? i = some ri) (hpi : ri.status = .pending)
    (hj : s.proms.get? j = some rj) (hpj : rj.status = .pending)
    (hij : i ≠ j) (st : PStatus) (hst : st ≠ .pending) :
    ((settle (setOp (setOp s k (.prom i) o now) k (.prom j) o' now') i st).lookup k
        = some (CachedItem.mk k (.prom j) (computeExpiresAt o' s.ttl now') true) ∧
     (settle (setOp (setOp s k (.prom i) o now) k (.prom j) o' now') i st).promStatus j
        = some .pending) ∧
    ((computeExpiresAt o s.ttl now).gtNow now' = false →
      ((settle ((getSync (setOp s k (.prom i) o now) k
            (.fn (.newPromise .pending)) o' now').2) i st).lookup k
          = some (CachedItem.mk k (.prom s.proms.length)
              (computeExpiresAt o' s.ttl now') true) ∧
       (settle ((getSync (setOp s k (.prom i) o now) k
            (.fn (.newPromise .pending)) o' now').2) i st).promStatus s.proms.length
          = some .pending)) := by
  have httl1 : (setOp s k (.prom i) o now).ttl = s.ttl :=
    (setImpl_fields s k (.prom i) o now).1
  have hproms1 : (setOp s k (.prom i) o now).proms
      = updateAt s.proms i (fun r => { r with callbacks := r.callbacks ++ [k] }) :=
    setImpl_proms_prom s k i o now
  have hget1 : (setOp s k (.prom i) o now).proms.get? i
      = some (PromiseRec.mk .pending (ri.callbacks ++ [k])) := by
    rw [hproms1, updateAt_get?_self, hi]
    show some (PromiseRec.mk ri.status (ri.callbacks ++ [k])) = _
    rw [hpi]
  constructor
  · -- overwrite via the public `set`
    have hget2 : (setOp (setOp s k (.prom i) o now) k (.prom j) o' now').proms.get? i
        = some (PromiseRec.mk .pending (ri.callbacks ++ [k])) := by
      rw [setOp_eq, setImpl_proms_prom, updateAt_get?_ne _ (Ne.symm hij), hget1]
    have hlook2 : (setOp (setOp s k (.prom i) o now) k (.prom j) o' now').lookup k
        = some (newItemOf k (.prom j) o' s.ttl now') := by
      show (setImpl (setOp s k (.prom i) o now) k (.prom j) o' now').lookup k = _
      rw [setImpl_lookup_self, httl1]
    constructor
    · rw [settle_marks_current st hget2 (by simp) hlook2]
      rfl
    · rw [settle_promStatus_ne st hij]
      show ((setImpl (setOp s k (.prom i) o now) k (.prom j) o' now').proms.get? j).map _
        = _
      rw [setImpl_proms_prom, updateAt_get?_self, hproms1, updateAt_get?_ne _ hij, hj]
      show some (PromiseRec.mk rj.status (rj.callbacks ++ [k])).status = _
      rw [hpj]
  · -- refresh via `get` on the expired entry
    intro hexp
    have hilen : i < s.proms.length := get?_some_lt hi
    have hlen1 : (setOp s k (.prom i) o now).proms.length = s.proms.length := by
      rw [hproms1, updateAt_length]
    have halive : aliveAt (setOp s k (.prom i) o now) k now' = false := by
      unfold aliveAt
      rw [setOp_eq, setImpl_lookup_self]
      exact hexp
    rw [getSync_missPath halive (.fn (.newPromise .pending)) o']
    simp only [getMiss_fnNew, hlen1]
    have hsfget : (fetchFreshState (setOp s k (.prom i) o now) .pending).proms.get? i
        = some (PromiseRec.mk .pending (ri.callbacks ++ [k])) := by
      show ((setOp s k (.prom i) o now).proms ++ [PromiseRec.mk .pending []]).get? i = _
      rw [List.get?_append (by rw [hlen1]; exact hilen), hget1]
    have hne : i ≠ s.proms.length := by omega
    have hget2g : (setImpl (fetchFreshState (setOp s k (.prom i) o now) .pending)
            k (.prom s.proms.length) o' now').proms.get? i
        = some (PromiseRec.mk .pending (ri.callbacks ++ [k])) := by
      rw [setImpl_proms_prom, updateAt_get?_ne _ (Ne.symm hne), hsfget]
    have hlook2g : (setImpl (fetchFreshState (setOp s k (.prom i) o now) .pending)
            k (.prom s.proms.length) o' now').lookup k
        = some (newItemOf k (.prom s.proms.length) o' s.ttl now') := by
      rw [setImpl_lookup_self]
      show some (newItemOf k (.prom s.proms.length) o'
        (setOp s k (.prom i) o now).ttl now') = _
      rw [httl1]
    constructor
    · rw [settle_marks_current st hget2g (by simp) hlook2g]
      rfl
    · rw [settle_promStatus_ne st hne]
      show ((setImpl (fetchFreshState (setOp s k (.prom i) o now) .pending)
            k (.prom s.proms.length) o' now').proms.get? s.proms.length).map _ = _
      rw [setImpl_proms_prom, updateAt_get?_self]
      show ((((setOp s k (.prom i) o now).proms ++ [PromiseRec.mk .pending []]).get?
        s.proms.length).map _).map _ = _
      rw [show s.proms.length = (setOp s k (.prom i) o now).proms.length from hlen1.symm,
        List.get?_concat_length]
      rfl

/-- Witness for C10 at a concrete state: two caller-owned pending
promises 0 and 1; key "a" first stores promise 0, is overwritten with
promise 1, then promise 0 fulfils. -/
theorem C10_stale_resolution_marks_replacement_witness :
    ((CacheState.mk [] 5 0 none false
        [PromiseRec.mk .pending [], PromiseRec.mk .pending []] 0).proms.get? 0
      = some (PromiseRec.mk .pending [])) ∧
    ((0 : Nat) ≠ 1) ∧ ((PStatus.fulfilled 9) ≠ .pending) ∧
    (((settle (setOp (setOp (CacheState.mk [] 5 0 none false
        [PromiseRec.mk .pending [], PromiseRec.mk .pending []] 0)
          "a" (.prom 0) none 0) "a" (.prom 1) none 2) 0 (.fulfilled 9)).lookup "a"
        = some (CachedItem.mk "a" (.prom 1) (computeExpiresAt none
            (CacheState.mk [] 5 0 none false
              [PromiseRec.mk .pending [], PromiseRec.mk .pending []] 0).ttl 2) true) ∧
     (settle (setOp (setOp (CacheState.mk [] 5 0 none false
        [PromiseRec.mk .pending [], PromiseRec.mk .pending []] 0)
          "a" (.prom 0) none 0) "a" (.prom 1) none 2) 0 (.fulfilled 9)).promStatus 1
        = some .pending) ∧
    ((computeExpiresAt none (CacheState.mk [] 5 0 none false
        [PromiseRec.mk .pending [], PromiseRec.mk .pending []] 0).ttl 0).gtNow 2 = false →
      ((settle ((getSync (setOp (CacheState.mk [] 5 0 none false
            [PromiseRec.mk .pending [], PromiseRec.mk .pending []] 0)
            "a" (.prom 0) none 0) "a"
            (.fn (.newPromise .pending)) none 2).2) 0 (.fulfilled 9)).lookup "a"
          = some (CachedItem.mk "a" (.prom (CacheState.mk [] 5 0 none false
              [PromiseRec.mk .pending [], PromiseRec.mk .pending []] 0).proms.length)
              (computeExpiresAt none (CacheState.mk [] 5 0 none false
                [PromiseRec.mk .pending [], PromiseRec.mk .pending []] 0).ttl 2) true) ∧
       (settle ((getSync (setOp (CacheState.mk [] 5 0 none false
            [PromiseRec.mk .pending [], PromiseRec.mk .pending []] 0)
            "a" (.prom 0) none 0) "a"
            (.fn (.newPromise .pending)) none 2).2) 0 (.fulfilled 9)).promStatus
          (CacheState.mk [] 5 0 none false
            [PromiseRec.mk .pending [], PromiseRec.mk .pending []] 0).proms.length
          = some .pending))) :=
  ⟨by decide, by decide, by decide,
    C10_stale_resolution_marks_replacement _ "a" 0 1 none none 0 2
      (PromiseRec.mk .pending []) (PromiseRec.mk .pending [])
      (by decide) (by decide) (by decide) (by decide) (by decide)
      (.fulfilled 9) (by decide)⟩

/-! ## Claim C3: a failing computation throws verbatim and is not retained -/

theorem eraseKeyL_map_keyFix {f : CachedItem → CachedItem}
    (hf : ∀ it, (f it).key = it.key) (l : List CachedItem) (k : String) :
    eraseKeyL (l.map f) k = (eraseKeyL l k).map f := by
  induction l with
  | nil => rfl
  | cons x xs ih =>
    rw [List.map_cons, eraseKeyL_cons, eraseKeyL_cons, hf]
    by_cases h : x.key = k
    · rw [if_pos h, if_pos h, ih]
    · rw [if_neg h, if_neg h, List.map_cons, ih]

theorem evictIfNeeded_cache_small {s : CacheState} {m : Nat}
    (hmx : s.maxEntries = some m) (h : s.cache.length < m) :
    (evictIfNeeded s).cache = s.cache := by
  unfold evictIfNeeded
  rw [hmx]
  rw [stopCleanupIfNeeded_cache, evictLoop_small h]

theorem fetchValue_fn_invocations (s : CacheState) (r : FnRet) :
    ((fetchValue s (.fn r)).2).invocations = s.invocations + 1 := by
  cases r <;> rfl

theorem lookup_none_of_hasKey_false {s : CacheState} {k : String}
    (h : s.hasKey k = false) : s.lookup k = none := by
  unfold CacheState.hasKey at h
  cases hl : s.lookup k with
  | none => rfl
  | some it =>
    rw [hl] at h
    cases h

theorem aliveAt_false_of_hasKey_false {s : CacheState} {k : String} {now : Nat}
    (h : s.hasKey k = false) : aliveAt s k now = false := by
  unfold aliveAt
  rw [lookup_none_of_hasKey_false h]

instance exceptDecEq {α β : Type} [DecidableEq α] [DecidableEq β] :
    DecidableEq (Except α β)
  | .error a, .error b =>
    if h : a = b then isTrue (by rw [h])
    else isFalse (fun hh => by cases hh; exact h rfl)
  | .error _, .ok _ => isFalse (fun hh => by cases hh)
  | .ok _, .error _ => isFalse (fun hh => by cases hh)
  | .ok a, .ok b =>
    if h : a = b then isTrue (by rw [h])
    else isFalse (fun hh => by cases hh; exact h rfl)

/-- C3 counterexample: with `maxEntries = 1` and one resolved entry, a
`get` on a fresh key whose computation rejects throws the failure and
removes its own entry, but the insertion evicted the resolved entry
first — `size()` drops from 1 to 0 across the call, so the claim's
"size() after the call equals size() from before" is false. -/
theorem C3_size_change_cex :
    (setOp (CacheState.mk [] 5 0 (some 1) false [] 0) "a" (.val 1) none 0).size = 1 ∧
    awaitResult (settle ((getSync (setOp (CacheState.mk [] 5 0 (some 1) false [] 0)
        "a" (.val 1) none 0) "b" (.fn (.newPromise .pending)) none 0).2)
        0 (.rejected 3))
      ((getSync (setOp (CacheState.mk [] 5 0 (some 1) false [] 0)
        "a" (.val 1) none 0) "b" (.fn (.newPromise .pending)) none 0).1)
      = some (.error 3) ∧
    (handleSettled (settle ((getSync (setOp (CacheState.mk [] 5 0 (some 1) false [] 0)
        "a" (.val 1) none 0) "b" (.fn (.newPromise .pending)) none 0).2)
        0 (.rejected 3)) "b" (.error 3)).2 = .error 3 ∧
    (handleSettled (settle ((getSync (setOp (CacheState.mk [] 5 0 (some 1) false [] 0)
        "a" (.val 1) none 0) "b" (.fn (.newPromise .pending)) none 0).2)
        0 (.rejected 3)) "b" (.error 3)).1.size = 0 := by
  decide

/-- C3 (amended): a `get` whose computation rejects throws the original
failure value unwrapped, deletes the entry for its key, and a subsequent
`get` on that key invokes its computation again; `size()` is restored to
its pre-call value provided the key was absent before the call and the
insertion triggered no LRU eviction (the cache unbounded or strictly
under capacity) — with an eviction, or with a pre-existing expired entry
under the key, the call shrinks `size()` instead. -/
theorem C3_failure_eviction (s : CacheState) (k : String) (o : Option Nat)
    (now : Nat) (e : Int) (habs : s.hasKey k = false)
    (hcap : s.maxEntries = none ∨ ∃ m, s.maxEntries = some m ∧ s.cache.length < m) :
    (getSync s k (.fn (.newPromise .pending)) o now).1 = .prom s.proms.length ∧
    awaitResult (settle ((getSync s k (.fn (.newPromise .pending)) o now).2)
        s.proms.length (.rejected e)) (.prom s.proms.length) = some (.error e) ∧
    (handleSettled (settle ((getSync s k (.fn (.newPromise .pending)) o now).2)
        s.proms.length (.rejected e)) k (.error e)).2 = .error e ∧
    (handleSettled (settle ((getSync s k (.fn (.newPromise .pending)) o now).2)
        s.proms.length (.rejected e)) k (.error e)).1.hasKey k = false ∧
    (handleSettled (settle ((getSync s k (.fn (.newPromise .pending)) o now).2)
        s.proms.length (.rejected e)) k (.error e)).1.size = s.size ∧
    (∀ (r' : FnRet) (o' : Option Nat) (now' : Nat),
      ((getSync (handleSettled (settle ((getSync s k (.fn (.newPromise .pending)) o now).2)
          s.proms.length (.rejected e)) k (.error e)).1 k (.fn r') o' now').2).invocations
        = (handleSettled (settle ((getSync s k (.fn (.newPromise .pending)) o now).2)
            s.proms.length (.rejected e)) k (.error e)).1.invocations + 1) := by
  have halive : aliveAt s k now = false := aliveAt_false_of_hasKey_false habs
  rw [getSync_missPath halive (.fn (.newPromise .pending)) o, getMiss_fnNew]
  -- the state after the synchronous phase of the failing get
  have hsf_has : (fetchFreshState s .pending).hasKey k = false := habs
  have hsf_cache : (setImpl (fetchFreshState s .pending) k (.prom s.proms.length) o now).cache
      = s.cache ++ [newItemOf k (.prom s.proms.length) o s.ttl now] := by
    rw [setImpl_cache]
    rw [if_neg (by rw [hsf_has]; exact Bool.false_ne_true)]
    rcases hcap with hnone | ⟨m, hmx, hlt⟩
    · rw [evictIfNeeded_none (s := fetchFreshState s .pending) hnone]
      rfl
    · rw [evictIfNeeded_cache_small (s := fetchFreshState s .pending) hmx hlt]
      rfl
  have hsf_get : (setImpl (fetchFreshState s .pending) k (.prom s.proms.length) o now).proms.get?
      s.proms.length = some (PromiseRec.mk .pending [k]) := by
    rw [setImpl_proms_prom, updateAt_get?_self]
    show (((s.proms ++ [PromiseRec.mk .pending []]).get? s.proms.length).map _) = _
    rw [List.get?_concat_length]
    rfl
  have hstat := settle_promStatus_self hsf_get rfl (.rejected e)
  have hs2 := settle_of_pending hsf_get rfl (.rejected e)
  have comp2 : awaitResult (settle (setImpl (fetchFreshState s .pending) k
      (.prom s.proms.length) o now) s.proms.length (.rejected e)) (.prom s.proms.length)
      = some (.error e) := by
    rw [awaitResult_prom, hstat]
  have comp4 : ((settle (setImpl (fetchFreshState s .pending) k (.prom s.proms.length)
      o now) s.proms.length (.rejected e)).deleteKey k).hasKey k = false :=
    hasKey_deleteKey_self _ k
  have comp5 : ((settle (setImpl (fetchFreshState s .pending) k (.prom s.proms.length)
      o now) s.proms.length (.rejected e)).deleteKey k).size = s.size := by
    rw [hs2]
    rw [fireCallbacks_eq]
    show (eraseKeyL ((setImpl (fetchFreshState s .pending) k (.prom s.proms.length)
      o now).cache.map (resolveMark [k])) k).length = s.cache.length
    rw [hsf_cache, eraseKeyL_map_keyFix (fun it => resolveMark_key), eraseKeyL_append,
      eraseKeyL_of_none (lookup_none_of_hasKey_false habs)]
    rw [show eraseKeyL [newItemOf k (.prom s.proms.length) o s.ttl now] k = [] from by
      rw [eraseKeyL_cons,
        if_pos (newItemOf_key k (.prom s.proms.length) o s.ttl now)]
      rfl]
    rw [List.append_nil, List.length_map]
  have comp6 : ∀ (r' : FnRet) (o' : Option Nat) (now' : Nat),
      ((getSync ((settle (setImpl (fetchFreshState s .pending) k (.prom s.proms.length)
          o now) s.proms.length (.rejected e)).deleteKey k) k (.fn r') o' now').2).invocations
        = ((settle (setImpl (fetchFreshState s .pending) k (.prom s.proms.length)
            o now) s.proms.length (.rejected e)).deleteKey k).invocations + 1 := by
    intro r' o' now'
    rw [getSync_missPath (aliveAt_false_of_hasKey_false comp4) (.fn r') o']
    show (setImpl ((fetchValue _ (.fn r')).2) k ((fetchValue _ (.fn r')).1)
      o' now').invocations = _
    rw [(setImpl_fields _ _ _ _ _).2.2.2]
    exact fetchValue_fn_invocations _ r'
  exact ⟨rfl, comp2, rfl, comp4, comp5, comp6⟩

/-- Witness for C3's amended statement: an unbounded empty engine, a
`get` on fresh key `"K"` whose computation rejects with reason 3. -/
theorem C3_failure_eviction_witness :
    (CacheState.mk [] 5 0 none false [] 0).hasKey "K" = false ∧
    (CacheState.mk [] 5 0 none false [] 0).maxEntries = none ∧
    ((getSync (CacheState.mk [] 5 0 none false [] 0) "K"
        (.fn (.newPromise .pending)) none 0).1
      = .prom (CacheState.mk [] 5 0 none false [] 0).proms.length ∧
    awaitResult (settle ((getSync (CacheState.mk [] 5 0 none false [] 0) "K"
        (.fn (.newPromise .pending)) none 0).2)
        (CacheState.mk [] 5 0 none false [] 0).proms.length (.rejected 3))
      (.prom (CacheState.mk [] 5 0 none false [] 0).proms.length) = some (.error 3) ∧
    (handleSettled (settle ((getSync (CacheState.mk [] 5 0 none false [] 0) "K"
        (.fn (.newPromise .pending)) none 0).2)
        (CacheState.mk [] 5 0 none false [] 0).proms.length (.rejected 3)) "K"
        (.error 3)).2 = .error 3 ∧
    (handleSettled (settle ((getSync (CacheState.mk [] 5 0 none false [] 0) "K"
        (.fn (.newPromise .pending)) none 0).2)
        (CacheState.mk [] 5 0 none false [] 0).proms.length (.rejected 3)) "K"
        (.error 3)).1.hasKey "K" = false ∧
    (handleSettled (settle ((getSync (CacheState.mk [] 5 0 none false [] 0) "K"
        (.fn (.newPromise .pending)) none 0).2)
        (CacheState.mk [] 5 0 none false [] 0).proms.length (.rejected 3)) "K"
        (.error 3)).1.size = (CacheState.mk [] 5 0 none false [] 0).size ∧
    (∀ (r' : FnRet) (o' : Option Nat) (now' : Nat),
      ((getSync (handleSettled (settle ((getSync (CacheState.mk [] 5 0 none false [] 0) "K"
          (.fn (.newPromise .pending)) none 0).2)
          (CacheState.mk [] 5 0 none false [] 0).proms.length (.rejected 3)) "K"
          (.error 3)).1 "K" (.fn r') o' now').2).invocations
        = (handleSettled (settle ((getSync (CacheState.mk [] 5 0 none false [] 0) "K"
            (.fn (.newPromise .pending)) none 0).2)
            (CacheState.mk [] 5 0 none false [] 0).proms.length (.rejected 3)) "K"
            (.error 3)).1.invocations + 1)) :=
  ⟨by decide, rfl, C3_failure_eviction _ "K" none 0 3 (by decide) (Or.inl rfl)⟩

/-! ## Claim C7: the cleanup-timer invariant -/

theorem TimerIff_eq (s : CacheState) :
    TimerIff s ↔
      s.cleanupTimer = (decide (s.cache ≠ []) && decide (s.cleanupInterval ≠ 0)) := by
  unfold TimerIff
  cases ht : s.cleanupTimer <;> by_cases hc : s.cache = [] <;>
    by_cases hi : s.cleanupInterval = 0 <;> simp [hc, hi]

theorem fetchValue_frame (s : CacheState) (f : Fetch) :
    ((fetchValue s f).2).cache = s.cache ∧
    ((fetchValue s f).2).cleanupTimer = s.cleanupTimer ∧
    ((fetchValue s f).2).cleanupInterval = s.cleanupInterval ∧
    ((fetchValue s f).2).maxEntries = s.maxEntries ∧
    ((fetchValue s f).2).ttl = s.ttl := by
  cases f with
  | fn r => cases r <;> exact ⟨rfl, rfl, rfl, rfl, rfl⟩
  | promF i => exact ⟨rfl, rfl, rfl, rfl, rfl⟩
  | valF v => exact ⟨rfl, rfl, rfl, rfl, rfl⟩

theorem TimerIff_setImpl (s : CacheState) (k : String) (v : PVal) (o : Option Nat)
    (now : Nat) (hT : TimerIff s) : TimerIff (setImpl s k v o now) := by
  rw [TimerIff_eq] at hT ⊢
  rw [setImpl_timer, setImpl_cache, (setImpl_fields s k v o now).2.1]
  have hne : ((if s.hasKey k = true then eraseKeyL s.cache k
      else (evictIfNeeded s).cache) ++ [newItemOf k v o s.ttl now]) ≠ [] := by
    intro h
    have := congrArg List.length h
    simp at this
  rw [decide_eq_true hne, Bool.true_and]
  by_cases hi : s.cleanupInterval = 0
  · have hIf : decide (s.cleanupInterval ≠ 0) = false := by simp [hi]
    rw [hIf, Bool.or_false]
    have hts : s.cleanupTimer = false := by
      rw [hT, hIf, Bool.and_false]
    by_cases hk : s.hasKey k = true
    · rw [if_pos hk]
      exact hts
    · rw [if_neg hk]
      exact evictIfNeeded_timer_false hts
  · have hIf : decide (s.cleanupInterval ≠ 0) = true := by simp [hi]
    rw [hIf, Bool.or_true]

theorem TimerIff_fetch {s : CacheState} (hT : TimerIff s) (f : Fetch) :
    TimerIff ((fetchValue s f).2) := by
  rw [TimerIff_eq] at hT ⊢
  obtain ⟨h1, h2, h3, -, -⟩ := fetchValue_frame s f
  rw [h1, h2, h3]
  exact hT

theorem TimerIff_stopAfterRemoval (s : CacheState) (c' : List CachedItem)
    (hT : TimerIff s) (himp : c' ≠ [] → s.cache ≠ []) :
    TimerIff (stopCleanupIfNeeded { s with cache := c' }) := by
  rw [TimerIff_eq] at hT ⊢
  rw [stopCleanupIfNeeded_eq]
  show (s.cleanupTimer && decide (c'.length ≠ 0))
    = (decide (c' ≠ []) && decide (s.cleanupInterval ≠ 0))
  by_cases hc : c' = []
  · subst hc
    simp
  · have h1 : decide (c' ≠ []) = true := decide_eq_true hc
    have h2 : decide (c'.length ≠ 0) = true :=
      decide_eq_true (fun hlen => hc (List.length_eq_zero.mp hlen))
    have h3 : s.cache ≠ [] := himp hc
    rw [h1, h2, Bool.and_true, Bool.true_and, hT, decide_eq_true h3, Bool.true_and]

theorem cache_ne_nil_of_lookup {s : CacheState} {k : String} {it : CachedItem}
    (hl : s.lookup k = some it) : s.cache ≠ [] := by
  intro hc
  unfold CacheState.lookup at hl
  rw [hc] at hl
  cases hl

/-- C7 counterexample: a `get` whose computation rejects removes the last
entry through `_handlePromise`'s `_delete`, which performs no
`_stopCleanupIfNeeded` check — after the public `get` completes, the
cache is empty with `cleanupInterval = 5 ≠ 0` yet the timer is still
running, violating the claimed iff. -/
theorem C7_timer_left_running_cex :
    (handleSettled (settle ((getSync (CacheState.mk [] 7 5 none false [] 0) "k"
        (.fn (.newPromise .pending)) none 0).2) 0 (.rejected 3)) "k"
        (.error 3)).1.cache = [] ∧
    (handleSettled (settle ((getSync (CacheState.mk [] 7 5 none false [] 0) "k"
        (.fn (.newPromise .pending)) none 0).2) 0 (.rejected 3)) "k"
        (.error 3)).1.cleanupTimer = true ∧
    (handleSettled (settle ((getSync (CacheState.mk [] 7 5 none false [] 0) "k"
        (.fn (.newPromise .pending)) none 0).2) 0 (.rejected 3)) "k"
        (.error 3)).1.cleanupInterval = 5 ∧
    ¬ TimerIff (handleSettled (settle ((getSync (CacheState.mk [] 7 5 none false [] 0) "k"
        (.fn (.newPromise .pending)) none 0).2) 0 (.rejected 3)) "k"
        (.error 3)).1 := by
  decide

/-- C7 (amended): the invariant "the cleanup timer is active iff the
cache is non-empty and `cleanupInterval ≠ 0`" is preserved by `set`,
`delete`, `clear`, every housekeeping tick, and the synchronous phase of
every `get`; it is *not* restored by the rejection path of `get` — a
failing computation that empties the cache leaves the timer running (see
the counterexample) until the next tick, `delete` or `clear` stops it. -/
theorem C7_timer_invariant (s : CacheState) (hT : TimerIff s) :
    (∀ (k : String) (v : PVal) (o : Option Nat) (now : Nat),
      TimerIff (setOp s k v o now)) ∧
    (∀ k, TimerIff (deleteOp s k)) ∧
    TimerIff (clearOp s) ∧
    (∀ now, TimerIff (housekeepingTick s now)) ∧
    (∀ (k : String) (f : Fetch) (o : Option Nat) (now : Nat),
      TimerIff ((getSync s k f o now).2)) := by
  refine ⟨fun k v o now => TimerIff_setImpl s k v o now hT, fun k => ?_, ?_, fun now => ?_,
    fun k f o now => ?_⟩
  · exact TimerIff_stopAfterRemoval s (eraseKeyL s.cache k) hT
      (fun h hc => h (by rw [hc]; rfl))
  · exact TimerIff_stopAfterRemoval s [] hT (fun h => absurd rfl h)
  · show TimerIff (stopCleanupIfNeeded (housekeeping s now))
    rw [housekeeping_eq]
    exact TimerIff_stopAfterRemoval s _ hT
      (fun h hc => h (by rw [hc]; rfl))
  · cases hl : s.lookup k with
    | none =>
      rw [getSync_missPath (by unfold aliveAt; rw [hl]) f o]
      exact TimerIff_setImpl ((fetchValue s f).2) k ((fetchValue s f).1) o now
        (TimerIff_fetch hT f)
    | some it =>
      by_cases hgt : it.expiresAt.gtNow now = true
      · rw [getSync_hit hl hgt f o]
        show TimerIff (moveToEnd s k it)
        rw [TimerIff_eq] at hT ⊢
        show s.cleanupTimer
          = (decide ((eraseKeyL s.cache k ++ [it]) ≠ []) && decide (s.cleanupInterval ≠ 0))
        have hne : (eraseKeyL s.cache k ++ [it]) ≠ [] := by
          intro h
          have := congrArg List.length h
          simp at this
        rw [decide_eq_true hne, Bool.true_and, hT,
          decide_eq_true (cache_ne_nil_of_lookup hl), Bool.true_and]
      · have hgt' : it.expiresAt.gtNow now = false := by
          cases h : it.expiresAt.gtNow now
          · rfl
          · exact absurd h hgt
        rw [getSync_missPath (by unfold aliveAt; rw [hl]; exact hgt') f o]
        exact TimerIff_setImpl ((fetchValue s f).2) k ((fetchValue s f).1) o now
          (TimerIff_fetch hT f)

/-- Witness for C7's amended statement at a concrete state satisfying
the invariant: one live entry, timer running, interval 5. -/
theorem C7_timer_invariant_witness :
    TimerIff (CacheState.mk [CachedItem.mk "a" (.val 1) (.fin 9) true]
      5 5 none true [] 0) ∧
    ((∀ (k : String) (v : PVal) (o : Option Nat) (now : Nat),
      TimerIff (setOp (CacheState.mk [CachedItem.mk "a" (.val 1) (.fin 9) true]
        5 5 none true [] 0) k v o now)) ∧
    (∀ k, TimerIff (deleteOp (CacheState.mk [CachedItem.mk "a" (.val 1) (.fin 9) true]
        5 5 none true [] 0) k)) ∧
    TimerIff (clearOp (CacheState.mk [CachedItem.mk "a" (.val 1) (.fin 9) true]
        5 5 none true [] 0)) ∧
    (∀ now, TimerIff (housekeepingTick (CacheState.mk
        [CachedItem.mk "a" (.val 1) (.fin 9) true] 5 5 none true [] 0) now)) ∧
    (∀ (k : String) (f : Fetch) (o : Option Nat) (now : Nat),
      TimerIff ((getSync (CacheState.mk [CachedItem.mk "a" (.val 1) (.fin 9) true]
        5 5 none true [] 0) k f o now).2))) :=
  ⟨by decide, C7_timer_invariant _ (by decide)⟩

/-! ## Claim C5: bounded size except for all-pending overflow -/

/-- C5 counterexample: `maxEntries = 2`; three `get` calls on distinct
keys with still-pending computations overflow the cache to size 3 (all
pending — permitted by the claim); then the third computation settles.
The state remains reachable with `size() = 3 > 2` although not every
existing entry is pending, falsifying the claimed state invariant. -/
theorem C5_overflow_persists_cex :
    (settle ((getSync ((getSync ((getSync (CacheState.mk [] 5 0 (some 2) false [] 0)
        "a" (.fn (.newPromise .pending)) none 0).2)
        "b" (.fn (.newPromise .pending)) none 0).2)
        "c" (.fn (.newPromise .pending)) none 0).2) 2 (.fulfilled 9)).maxEntries
      = some 2 ∧
    (settle ((getSync ((getSync ((getSync (CacheState.mk [] 5 0 (some 2) false [] 0)
        "a" (.fn (.newPromise .pending)) none 0).2)
        "b" (.fn (.newPromise .pending)) none 0).2)
        "c" (.fn (.newPromise .pending)) none 0).2) 2 (.fulfilled 9)).size = 3 ∧
    ¬ (∀ it ∈ (settle ((getSync ((getSync ((getSync
        (CacheState.mk [] 5 0 (some 2) false [] 0)
        "a" (.fn (.newPromise .pending)) none 0).2)
        "b" (.fn (.newPromise .pending)) none 0).2)
        "c" (.fn (.newPromise .pending)) none 0).2) 2 (.fulfilled 9)).cache,
      it.isResolved = false) := by
  decide

/-- C5 (amended): inserting a new key into a bounded engine leaves
`size() <= maxEntries` unless, after the eviction scan, every other
entry is still pending — overflow can only be *created* while every
existing entry is pending; and no entry is ever silently dropped: every
pending entry survives the insertion.  (Once an overflowing entry
settles, the oversize state persists until a later new-key insertion
evicts it, as the counterexample shows.) -/
theorem C5_overflow_only_when_all_pending (s : CacheState) (k : String) (v : PVal)
    (o : Option Nat) (now : Nat) (m : Nat) (hmx : s.maxEntries = some m)
    (hnew : s.hasKey k = false) (hnd : (keysOf s.cache).Nodup) :
    ((setOp s k v o now).size ≤ m ∨
      (∀ it ∈ (setOp s k v o now).cache, it.key ≠ k → it.isResolved = false)) ∧
    (∀ e ∈ s.cache, e.isResolved = false → e ∈ (setOp s k v o now).cache) := by
  have hcache : (setOp s k v o now).cache
      = (evictLoop s.cache.length m s).cache ++ [newItemOf k v o s.ttl now] := by
    rw [setOp_eq, setImpl_cache, if_neg (by rw [hnew]; exact Bool.false_ne_true)]
    unfold evictIfNeeded
    rw [hmx, stopCleanupIfNeeded_cache]
  constructor
  · cases evictLoop_post s.cache.length m s (Nat.le_refl _) with
    | inl hlt =>
      left
      show (setOp s k v o now).cache.length ≤ m
      rw [hcache, List.length_append]
      simp only [List.length_singleton]
      omega
    | inr hall =>
      right
      intro it hit hkey
      rw [hcache] at hit
      rcases List.mem_append.mp hit with h | h
      · exact hall it h
      · have heq := List.mem_singleton.mp h
        rw [heq] at hkey
        exact absurd (newItemOf_key k v o s.ttl now) hkey
  · intro e he hp
    rw [hcache]
    exact List.mem_append_left _ (evictLoop_pending_preserved _ m s hnd he hp)

/-- Witness for C5's amended statement: inserting `"b"` into a
`maxEntries = 1` engine holding one pending entry. -/
theorem C5_overflow_only_when_all_pending_witness :
    (CacheState.mk [CachedItem.mk "a" (.prom 0) (.fin 9) false]
      5 0 (some 1) false [PromiseRec.mk .pending []] 0).maxEntries = some 1 ∧
    (CacheState.mk [CachedItem.mk "a" (.prom 0) (.fin 9) false]
      5 0 (some 1) false [PromiseRec.mk .pending []] 0).hasKey "b" = false ∧
    (keysOf (CacheState.mk [CachedItem.mk "a" (.prom 0) (.fin 9) false]
      5 0 (some 1) false [PromiseRec.mk .pending []] 0).cache).Nodup ∧
    ((((setOp (CacheState.mk [CachedItem.mk "a" (.prom 0) (.fin 9) false]
        5 0 (some 1) false [PromiseRec.mk .pending []] 0) "b" (.val 7) none 0).size ≤ 1 ∨
      (∀ it ∈ (setOp (CacheState.mk [CachedItem.mk "a" (.prom 0) (.fin 9) false]
        5 0 (some 1) false [PromiseRec.mk .pending []] 0) "b" (.val 7) none 0).cache,
        it.key ≠ "b" → it.isResolved = false)) ∧
    (∀ e ∈ (CacheState.mk [CachedItem.mk "a" (.prom 0) (.fin 9) false]
        5 0 (some 1) false [PromiseRec.mk .pending []] 0).cache,
      e.isResolved = false →
      e ∈ (setOp (CacheState.mk [CachedItem.mk "a" (.prom 0) (.fin 9) false]
        5 0 (some 1) false [PromiseRec.mk .pending []] 0) "b" (.val 7) none 0).cache))) :=
  ⟨rfl, by decide, by decide,
    C5_overflow_only_when_all_pending _ "b" (.val 7) none 0 1 rfl (by decide) (by decide)⟩

/-! ## Claim C1: coalescing of concurrent gets -/

theorem computeExpiresAt_gtNow (o : Option Nat) (d now : Nat) :
    (computeExpiresAt o d now).gtNow now = true := by
  unfold computeExpiresAt
  by_cases h0 : ttlNullish o d = 0
  · rw [if_pos h0]
    rfl
  · rw [if_neg h0]
    show decide (now < now + ttlOrDefault o d) = true
    have hpos : 0 < ttlOrDefault o d := by
      cases o with
      | none =>
        show 0 < d
        exact Nat.pos_of_ne_zero (by simpa [ttlNullish] using h0)
      | some t =>
        have ht : t ≠ 0 := by simpa [ttlNullish] using h0
        show 0 < (if t = 0 then d else t)
        rw [if_neg ht]
        exact Nat.pos_of_ne_zero ht
    exact decide_eq_true (by omega)

/-- Every later concurrent `get` on the same key, in the same turn, is a
hit on the stored entry: it returns the stored handle, invokes nothing,
touches neither the promise table nor the entry (beyond recency). -/
theorem runCalls_hit (k : String) (now : Nat) :
    ∀ (cs : List (Fetch × Option Nat)) (s1 : CacheState) (it : CachedItem),
      s1.lookup k = some it → it.expiresAt.gtNow now = true →
      (runCalls s1 k now cs).1.lookup k = some it ∧
      (runCalls s1 k now cs).1.invocations = s1.invocations ∧
      (runCalls s1 k now cs).1.proms = s1.proms ∧
      ∀ p ∈ (runCalls s1 k now cs).2, p = it.promise := by
  intro cs
  induction cs with
  | nil =>
    intro s1 it hl hgt
    exact ⟨hl, rfl, rfl, fun p hp => absurd hp (List.not_mem_nil p)⟩
  | cons c rest ih =>
    intro s1 it hl hgt
    have hcall := getSync_hit hl hgt c.1 c.2
    show ((runCalls (getSync s1 k c.1 c.2 now).2 k now rest).1.lookup k = some it) ∧
      ((runCalls (getSync s1 k c.1 c.2 now).2 k now rest).1.invocations
        = s1.invocations) ∧
      ((runCalls (getSync s1 k c.1 c.2 now).2 k now rest).1.proms = s1.proms) ∧
      (∀ p ∈ ((getSync s1 k c.1 c.2 now).1
          :: (runCalls (getSync s1 k c.1 c.2 now).2 k now rest).2), p = it.promise)
    rw [hcall]
    obtain ⟨a, b, c', d⟩ :=
      ih (moveToEnd s1 k it) it (moveToEnd_lookup_self (lookupL_key hl)) hgt
    refine ⟨a, b, c', ?_⟩
    intro p hp
    rcases List.mem_cons.mp hp with h | h
    · rw [h]
    · exact d p h

/-- C1: on a key with no live entry, the first `get` invokes its
computation, allocating one fresh promise, and inserts the pending entry
synchronously before awaiting; every further concurrent `get` on the key
in the same turn — whatever fetcher it carries — observes that entry,
awaits the same stored handle, and invokes nothing; once the computation
fulfils, every caller's awaited handle yields the identical value. -/
theorem C1_coalescing (s : CacheState) (k : String) (o : Option Nat) (now : Nat)
    (v : Int) (cs : List (Fetch × Option Nat)) (halive : aliveAt s k now = false) :
    (getSync s k (.fn (.newPromise .pending)) o now).1 = .prom s.proms.length ∧
    ((getSync s k (.fn (.newPromise .pending)) o now).2).lookup k
      = some (newItemOf k (.prom s.proms.length) o s.ttl now) ∧
    (newItemOf k (.prom s.proms.length) o s.ttl now).isResolved = false ∧
    (runCalls ((getSync s k (.fn (.newPromise .pending)) o now).2) k now cs).1.invocations
      = s.invocations + 1 ∧
    (∀ p ∈ ((getSync s k (.fn (.newPromise .pending)) o now).1
        :: (runCalls ((getSync s k (.fn (.newPromise .pending)) o now).2) k now cs).2),
      p = .prom s.proms.length) ∧
    (∀ p ∈ ((getSync s k (.fn (.newPromise .pending)) o now).1
        :: (runCalls ((getSync s k (.fn (.newPromise .pending)) o now).2) k now cs).2),
      awaitResult (settle
          (runCalls ((getSync s k (.fn (.newPromise .pending)) o now).2) k now cs).1
          s.proms.length (.fulfilled v)) p = some (.ok v)) := by
  rw [getSync_missPath halive (.fn (.newPromise .pending)) o, getMiss_fnNew]
  have hl1 : (setImpl (fetchFreshState s .pending) k (.prom s.proms.length) o now).lookup k
      = some (newItemOf k (.prom s.proms.length) o s.ttl now) :=
    setImpl_lookup_self _ _ _ _ _
  have hgt : (newItemOf k (.prom s.proms.length) o s.ttl now).expiresAt.gtNow now = true :=
    computeExpiresAt_gtNow o s.ttl now
  obtain ⟨a, b, c', d⟩ := runCalls_hit k now cs
    (setImpl (fetchFreshState s .pending) k (.prom s.proms.length) o now)
    (newItemOf k (.prom s.proms.length) o s.ttl now) hl1 hgt
  have hget : (setImpl (fetchFreshState s .pending) k (.prom s.proms.length) o now).proms.get?
      s.proms.length = some (PromiseRec.mk .pending [k]) := by
    rw [setImpl_proms_prom, updateAt_get?_self]
    show (((s.proms ++ [PromiseRec.mk .pending []]).get? s.proms.length).map _) = _
    rw [List.get?_concat_length]
    rfl
  have hall : ∀ p ∈ ((PVal.prom s.proms.length,
      setImpl (fetchFreshState s .pending) k (.prom s.proms.length) o now).1
      :: (runCalls (setImpl (fetchFreshState s .pending) k (.prom s.proms.length) o now)
          k now cs).2), p = .prom s.proms.length := by
    intro p hp
    rcases List.mem_cons.mp hp with h | h
    · rw [h]
    · rw [d p h]
      rfl
  refine ⟨rfl, hl1, rfl, ?_, hall, ?_⟩
  · rw [b, (setImpl_fields _ _ _ _ _).2.2.2]
    rfl
  · have hsn : (runCalls (setImpl (fetchFreshState s .pending) k (.prom s.proms.length)
        o now) k now cs).1.proms.get? s.proms.length
        = some (PromiseRec.mk .pending [k]) := by
      rw [c']
      exact hget
    have hstat := settle_promStatus_self hsn rfl (.fulfilled v)
    intro p hp
    rw [hall p hp, awaitResult_prom, hstat]

/-- Witness for C1 at a concrete state: fresh key `"K"`, two further
concurrent callers with different fetchers, settlement with value 11. -/
theorem C1_coalescing_witness :
    aliveAt (CacheState.mk [] 5 0 none false [] 0) "K" 100 = false ∧
    ((getSync (CacheState.mk [] 5 0 none false [] 0) "K"
        (.fn (.newPromise .pending)) none 100).1
      = .prom (CacheState.mk [] 5 0 none false [] 0).proms.length ∧
    ((getSync (CacheState.mk [] 5 0 none false [] 0) "K"
        (.fn (.newPromise .pending)) none 100).2).lookup "K"
      = some (newItemOf "K" (.prom (CacheState.mk [] 5 0 none false [] 0).proms.length)
          none (CacheState.mk [] 5 0 none false [] 0).ttl 100) ∧
    (newItemOf "K" (.prom (CacheState.mk [] 5 0 none false [] 0).proms.length)
        none (CacheState.mk [] 5 0 none false [] 0).ttl 100).isResolved = false ∧
    (runCalls ((getSync (CacheState.mk [] 5 0 none false [] 0) "K"
        (.fn (.newPromise .pending)) none 100).2) "K" 100
        [(.fn (.plain 3), none), (.valF 7, some 50)]).1.invocations
      = (CacheState.mk [] 5 0 none false [] 0).invocations + 1 ∧
    (∀ p ∈ ((getSync (CacheState.mk [] 5 0 none false [] 0) "K"
        (.fn (.newPromise .pending)) none 100).1
        :: (runCalls ((getSync (CacheState.mk [] 5 0 none false [] 0) "K"
            (.fn (.newPromise .pending)) none 100).2) "K" 100
            [(.fn (.plain 3), none), (.valF 7, some 50)]).2),
      p = .prom (CacheState.mk [] 5 0 none false [] 0).proms.length) ∧
    (∀ p ∈ ((getSync (CacheState.mk [] 5 0 none false [] 0) "K"
        (.fn (.newPromise .pending)) none 100).1
        :: (runCalls ((getSync (CacheState.mk [] 5 0 none false [] 0) "K"
            (.fn (.newPromise .pending)) none 100).2) "K" 100
            [(.fn (.plain 3), none), (.valF 7, some 50)]).2),
      awaitResult (settle
          (runCalls ((getSync (CacheState.mk [] 5 0 none false [] 0) "K"
            (.fn (.newPromise .pending)) none 100).2) "K" 100
            [(.fn (.plain 3), none), (.valF 7, some 50)]).1
          (CacheState.mk [] 5 0 none false [] 0).proms.length (.fulfilled 11)) p
        = some (.ok 11))) :=
  ⟨by decide, C1_coalescing _ "K" none 100 11
    [(.fn (.plain 3), none), (.valF 7, some 50)] (by decide)⟩

/-! ## Claim C6: the LRU eviction policy -/

/-- Insert an already-resolved plain value under `k` via the public `set`. -/
def insertPlainOp (now : Nat) (f : String → Int) (s : CacheState) (k : String) :
    CacheState :=
  setOp s k (.val (f k)) none now

/-- Insert a batch of plain values left to right. -/
def fillPlain (now : Nat) (f : String → Int) (s : CacheState) (ks : List String) :
    CacheState :=
  ks.foldl (insertPlainOp now f) s

/-- The item such an insertion stores. -/
def mkPlainItem (T now : Nat) (f : String → Int) (k : String) : CachedItem :=
  newItemOf k (.val (f k)) none T now

/-- An engine constructed with `ttl = T`, no background cleanup and
`maxEntries = N`. -/
def plainEngine (T N : Nat) : CacheState :=
  CacheState.mk [] T 0 (some N) false [] 0

theorem keysOf_map_mk (T now : Nat) (f : String → Int) (ks : List String) :
    keysOf (ks.map (mkPlainItem T now f)) = ks := by
  rw [keysOf, List.map_map]
  rw [show (CachedItem.key ∘ mkPlainItem T now f) = id from funext (fun k => rfl)]
  exact List.map_id ks

theorem lookupL_map_mk_not_mem {T now : Nat} {f : String → Int} {ks : List String}
    {k : String} (h : k ∉ ks) :
    lookupL (ks.map (mkPlainItem T now f)) k = none := by
  rw [lookupL_eq_none_iff]
  intro it hm heq
  obtain ⟨k', hk', hit⟩ := List.mem_map.mp hm
  rw [← hit] at heq
  have hkk : k' = k := heq
  exact h (hkk ▸ hk')

theorem lookupL_map_mk_mem {T now : Nat} {f : String → Int} {ks : List String}
    {k : String} (h : k ∈ ks) :
    (lookupL (ks.map (mkPlainItem T now f)) k).isSome = true := by
  induction ks with
  | nil => cases h
  | cons k' rest ih =>
    rw [List.map_cons, lookupL_cons]
    by_cases hk : (mkPlainItem T now f k').key = k
    · rw [if_pos hk]
      rfl
    · rw [if_neg hk]
      apply ih
      rcases List.mem_cons.mp h with h1 | h1
      · exact absurd (show (mkPlainItem T now f k').key = k from h1 ▸ rfl) hk
      · exact h1

theorem fillPlain_cache (now : Nat) (f : String → Int) (T N : Nat) :
    ∀ (ks : List String) (s : CacheState),
      s.ttl = T → s.maxEntries = some N →
      ((keysOf s.cache) ++ ks).Nodup →
      s.cache.length + ks.length ≤ N →
      (fillPlain now f s ks).cache = s.cache ++ ks.map (mkPlainItem T now f) ∧
      (fillPlain now f s ks).ttl = T ∧
      (fillPlain now f s ks).maxEntries = some N := by
  intro ks
  induction ks with
  | nil =>
    intro s h1 h2 h3 h4
    refine ⟨?_, h1, h2⟩
    show s.cache = _
    rw [List.map_nil, List.append_nil]
  | cons k rest ih =>
    intro s hT hmx hnd hlen
    have hkno : k ∉ keysOf s.cache := by
      rw [List.nodup_append] at hnd
      intro hmem
      exact hnd.2.2 hmem (List.mem_cons_self k rest)
    have hlookup : s.lookup k = none := by
      show lookupL s.cache k = none
      rw [lookupL_eq_none_iff]
      intro it hm heq
      exact hkno (heq ▸ List.mem_map_of_mem CachedItem.key hm)
    have hhk : s.hasKey k = false := by
      unfold CacheState.hasKey
      rw [hlookup]
      rfl
    have hstep_cache : (insertPlainOp now f s k).cache
        = s.cache ++ [mkPlainItem T now f k] := by
      show (setImpl s k (.val (f k)) none now).cache = _
      rw [setImpl_cache, if_neg (by rw [hhk]; exact Bool.false_ne_true),
        evictIfNeeded_cache_small hmx (by simp at hlen; omega), hT]
      rfl
    have hfields := setImpl_fields s k (.val (f k)) none now
    have hT' : (insertPlainOp now f s k).ttl = T := by
      rw [show (insertPlainOp now f s k).ttl = s.ttl from hfields.1, hT]
    have hmx' : (insertPlainOp now f s k).maxEntries = some N := by
      rw [show (insertPlainOp now f s k).maxEntries = s.maxEntries from hfields.2.2.1,
        hmx]
    have hnd' : ((keysOf (insertPlainOp now f s k).cache) ++ rest).Nodup := by
      rw [hstep_cache, keysOf, List.map_append]
      show ((keysOf s.cache ++ [k]) ++ rest).Nodup
      rw [← List.append_cons]
      exact hnd
    have hlen' : (insertPlainOp now f s k).cache.length + rest.length ≤ N := by
      rw [hstep_cache, List.length_append]
      simp only [List.length_singleton]
      simp at hlen
      omega
    obtain ⟨hc, ht2, hm2⟩ := ih (insertPlainOp now f s k) hT' hmx' hnd' hlen'
    refine ⟨?_, ht2, hm2⟩
    show (fillPlain now f (insertPlainOp now f s k) rest).cache = _
    rw [hc, hstep_cache, List.append_assoc]
    rfl

theorem evictIfNeeded_head_resolved {s : CacheState} {m : Nat}
    (hmx : s.maxEntries = some m) (hd : CachedItem) (tl : List CachedItem)
    (hc : s.cache = hd :: tl) (hlen : s.cache.length = m)
    (hres : hd.isResolved = true) (hnd : (keysOf s.cache).Nodup) :
    (evictIfNeeded s).cache = tl := by
  unfold evictIfNeeded
  rw [hmx, stopCleanupIfNeeded_cache]
  have hfind : findLRUCandidate s = some hd.key := by
    unfold findLRUCandidate
    rw [hc, List.find?_cons_of_pos _ hres]
    rfl
  have hdel : (s.deleteKey hd.key).cache = tl := by
    show eraseKeyL s.cache hd.key = tl
    rw [hc, eraseKeyL_cons, if_pos rfl]
    apply eraseKeyL_of_none
    rw [lookupL_eq_none_iff]
    intro it hm heq
    rw [hc, keysOf, List.map_cons, List.nodup_cons] at hnd
    exact hnd.1 (heq ▸ List.mem_map_of_mem CachedItem.key hm)
  obtain ⟨m', rfl⟩ : ∃ m', m = m' + 1 := by
    refine ⟨m - 1, ?_⟩
    have : s.cache.length ≠ 0 := by
      rw [hc]
      simp
    omega
  rw [hlen]
  rw [show evictLoop (m' + 1) (m' + 1) s
      = evictLoop m' (m' + 1) (s.deleteKey hd.key) from by
    simp only [evictLoop]
    rw [if_pos (by omega), hfind]]
  have hlt : (s.deleteKey hd.key).cache.length < m' + 1 := by
    rw [hdel]
    have hlen2 : tl.length + 1 = m' + 1 := by
      rw [← hlen, hc]
      rfl
    omega
  rw [evictLoop_small hlt, hdel]

/-- C6 counterexample: with `maxEntries = 1`, a `get` on the sole key
`"a"` does *not* protect it from being the eviction target — the next
new-key insert still evicts `"a"`, because the scan takes the first
resolved entry and `"a"` is the only entry.  The claim's protection
sentence is false at N = 1. -/
theorem C6_n1_protection_cex :
    (setOp ((getSync (setOp (plainEngine 5 1) "a" (.val 1) none 0) "a" (.valF 9)
        none 0).2) "b" (.val 2) none 0).hasKey "a" = false ∧
    (setOp ((getSync (setOp (plainEngine 5 1) "a" (.val 1) none 0) "a" (.valF 9)
        none 0).2) "b" (.val 2) none 0).hasKey "b" = true ∧
    (setOp ((getSync (setOp (plainEngine 5 1) "a" (.val 1) none 0) "a" (.valF 9)
        none 0).2) "b" (.val 2) none 0).size = 1 := by
  decide

/-- C6 (amended): (i) overwriting an existing key never evicts another
entry, and (ii) neither does any insertion when `maxEntries` is unset;
(iii) with `maxEntries = N ≥ 1`, inserting N+1 distinct keys holding
resolved values with no intervening access evicts exactly the
first-inserted key, leaving the other N present; (iv) for N ≥ 2, a `get`
on the least-recently-used key just before the (N+1)th insert protects
it: the insert evicts the next key in recency order instead.  (At N = 1
the protection clause fails — see the counterexample — since the
accessed key is still the only evictable entry.) -/
theorem C6_lru_eviction_policy (T now : Nat) (f : String → Int)
    (k0 m0 klast : String) (mrest : List String)
    (hnd : (k0 :: ((m0 :: mrest) ++ [klast])).Nodup) :
    (∀ (s : CacheState) (k : String) (v : PVal) (o : Option Nat) (now' : Nat),
      s.hasKey k = true → ∀ e ∈ s.cache, e.key ≠ k → e ∈ (setOp s k v o now').cache) ∧
    (∀ (s : CacheState) (k : String) (v : PVal) (o : Option Nat) (now' : Nat),
      s.maxEntries = none → ∀ e ∈ s.cache, e.key ≠ k → e ∈ (setOp s k v o now').cache) ∧
    (∀ (khd : String) (ktl : List String) (kn : String),
      ((khd :: ktl) ++ [kn]).Nodup →
      (insertPlainOp now f
          (fillPlain now f (plainEngine T (ktl.length + 1)) (khd :: ktl)) kn).cache
        = (ktl ++ [kn]).map (mkPlainItem T now f) ∧
      (insertPlainOp now f
          (fillPlain now f (plainEngine T (ktl.length + 1)) (khd :: ktl)) kn).hasKey khd
        = false ∧
      (∀ kk ∈ ktl ++ [kn],
        (insertPlainOp now f
          (fillPlain now f (plainEngine T (ktl.length + 1)) (khd :: ktl)) kn).hasKey kk
          = true) ∧
      (insertPlainOp now f
          (fillPlain now f (plainEngine T (ktl.length + 1)) (khd :: ktl)) kn).size
        = ktl.length + 1) ∧
    (∀ (fA : Fetch) (oA : Option Nat),
      (insertPlainOp now f ((getSync
          (fillPlain now f (plainEngine T (mrest.length + 2)) (k0 :: m0 :: mrest))
          k0 fA oA now).2) klast).hasKey k0 = true ∧
      (insertPlainOp now f ((getSync
          (fillPlain now f (plainEngine T (mrest.length + 2)) (k0 :: m0 :: mrest))
          k0 fA oA now).2) klast).hasKey m0 = false) := by
  refine ⟨?_, ?_, ?_, ?_⟩
  · intro s k v o now' hk e he hek
    exact setImpl_mem_overwrite v o now' hk he hek
  · intro s k v o now' hmx e he hek
    exact setImpl_mem_nomax v o now' hmx he hek
  · -- (iii): the general N-keys-then-one-more scenario
    intro khd ktl kn hnd3
    obtain ⟨hfc, hft, hfm⟩ := fillPlain_cache now f T (ktl.length + 1) (khd :: ktl)
      (plainEngine T (ktl.length + 1)) rfl rfl
      ((List.nodup_append.mp hnd3).1)
      (by simp [plainEngine])
    have hfc' : (fillPlain now f (plainEngine T (ktl.length + 1)) (khd :: ktl)).cache
        = (khd :: ktl).map (mkPlainItem T now f) := hfc
    have hnodup3 : (khd :: (ktl ++ [kn])).Nodup := by
      rw [← List.cons_append]
      exact hnd3
    have hkn_not : kn ∉ khd :: ktl := by
      rw [List.nodup_append] at hnd3
      intro hmem
      exact hnd3.2.2 hmem (List.mem_singleton.mpr rfl)
    have hkhd_not : khd ∉ ktl ++ [kn] := (List.nodup_cons.mp hnodup3).1
    have hlook_kn : (fillPlain now f (plainEngine T (ktl.length + 1))
        (khd :: ktl)).lookup kn = none := by
      show lookupL _ kn = none
      rw [hfc']
      exact lookupL_map_mk_not_mem hkn_not
    have hhk_kn : (fillPlain now f (plainEngine T (ktl.length + 1))
        (khd :: ktl)).hasKey kn = false := by
      unfold CacheState.hasKey
      rw [hlook_kn]
      rfl
    have hev : (evictIfNeeded (fillPlain now f (plainEngine T (ktl.length + 1))
        (khd :: ktl))).cache = ktl.map (mkPlainItem T now f) := by
      refine evictIfNeeded_head_resolved hfm (mkPlainItem T now f khd)
        (ktl.map (mkPlainItem T now f)) ?_ ?_ ?_ ?_
      · rw [hfc']
        rfl
      · rw [hfc', List.length_map]
        rfl
      · rfl
      · rw [hfc', keysOf_map_mk]
        exact (List.nodup_append.mp hnd3).1
    have hcache : (insertPlainOp now f
        (fillPlain now f (plainEngine T (ktl.length + 1)) (khd :: ktl)) kn).cache
        = (ktl ++ [kn]).map (mkPlainItem T now f) := by
      show (setImpl _ kn (.val (f kn)) none now).cache = _
      rw [setImpl_cache, if_neg (by rw [hhk_kn]; exact Bool.false_ne_true), hev, hft,
        List.map_append]
      rfl
    refine ⟨hcache, ?_, ?_, ?_⟩
    · unfold CacheState.hasKey CacheState.lookup
      rw [hcache, lookupL_map_mk_not_mem hkhd_not]
      rfl
    · intro kk hkk
      unfold CacheState.hasKey CacheState.lookup
      rw [hcache]
      exact lookupL_map_mk_mem hkk
    · show (insertPlainOp now f _ kn).cache.length = _
      rw [hcache, List.length_map, List.length_append]
      rfl
  · -- (iv): protection of an accessed key, N = mrest.length + 2
    intro fA oA
    -- unpack the distinctness facts
    have hndA : (k0 :: ((m0 :: mrest) ++ [klast])).Nodup := hnd
    have hk0_not : k0 ∉ (m0 :: mrest) ++ [klast] := (List.nodup_cons.mp hndA).1
    have hndB : ((m0 :: mrest) ++ [klast]).Nodup := (List.nodup_cons.mp hndA).2
    have hm0_not : m0 ∉ mrest ++ [klast] := by
      have := hndB
      rw [List.cons_append, List.nodup_cons] at this
      exact this.1
    have hklast_not : klast ∉ m0 :: mrest := by
      rw [List.nodup_append] at hndB
      intro hmem
      exact hndB.2.2 hmem (List.mem_singleton.mpr rfl)
    have hk0ne : k0 ∉ m0 :: mrest := by
      intro hmem
      exact hk0_not (List.mem_append_left _ hmem)
    have hk0klast : k0 ≠ klast := by
      intro h
      exact hk0_not (List.mem_append_right _ (by rw [h]; exact List.mem_singleton.mpr rfl))
    have hndSmall : (k0 :: m0 :: mrest).Nodup :=
      List.nodup_cons.mpr ⟨hk0ne, ((List.nodup_cons.mp hndA).2 |> List.nodup_append.mp).1⟩
    obtain ⟨hfc, hft, hfm⟩ := fillPlain_cache now f T (mrest.length + 2)
      (k0 :: m0 :: mrest) (plainEngine T (mrest.length + 2)) rfl rfl
      hndSmall
      (by simp [plainEngine])
    have hfc' : (fillPlain now f (plainEngine T (mrest.length + 2))
        (k0 :: m0 :: mrest)).cache = (k0 :: m0 :: mrest).map (mkPlainItem T now f) :=
      hfc
    -- the hit on k0 and the move to the tail
    have hlk0 : (fillPlain now f (plainEngine T (mrest.length + 2))
        (k0 :: m0 :: mrest)).lookup k0 = some (mkPlainItem T now f k0) := by
      show lookupL _ k0 = _
      rw [hfc', List.map_cons, lookupL_cons,
        if_pos (show (mkPlainItem T now f k0).key = k0 from rfl)]
    have hgt : (mkPlainItem T now f k0).expiresAt.gtNow now = true :=
      computeExpiresAt_gtNow none T now
    rw [getSync_hit hlk0 hgt fA oA]
    have hmove : (moveToEnd (fillPlain now f (plainEngine T (mrest.length + 2))
        (k0 :: m0 :: mrest)) k0 (mkPlainItem T now f k0)).cache
        = (m0 :: mrest).map (mkPlainItem T now f) ++ [mkPlainItem T now f k0] := by
      show eraseKeyL _ k0 ++ _ = _
      rw [hfc', List.map_cons, eraseKeyL_cons,
        if_pos (show (mkPlainItem T now f k0).key = k0 from rfl),
        eraseKeyL_of_none (lookupL_map_mk_not_mem hk0ne)]
    -- the final insert of klast
    have hlook_klast : (moveToEnd (fillPlain now f (plainEngine T (mrest.length + 2))
        (k0 :: m0 :: mrest)) k0 (mkPlainItem T now f k0)).lookup klast = none := by
      show lookupL _ klast = none
      rw [hmove, lookupL_append_of_none (lookupL_map_mk_not_mem hklast_not),
        lookupL_cons, if_neg (show ¬((mkPlainItem T now f k0).key = klast) from
          fun h => hk0klast h)]
      rfl
    have hhk_klast : (moveToEnd (fillPlain now f (plainEngine T (mrest.length + 2))
        (k0 :: m0 :: mrest)) k0 (mkPlainItem T now f k0)).hasKey klast = false := by
      unfold CacheState.hasKey
      rw [hlook_klast]
      rfl
    have hm0_mrest : m0 ∉ mrest := fun h => hm0_not (List.mem_append_left _ h)
    have hm0_k0 : m0 ≠ k0 := fun h => hk0ne (by rw [← h]; exact List.mem_cons_self m0 mrest)
    have hm0_klast : m0 ≠ klast := fun h =>
      hm0_not (List.mem_append_right _ (by rw [h]; exact List.mem_singleton.mpr rfl))
    have hk0_mrest : k0 ∉ mrest := fun h => hk0ne (List.mem_cons_of_mem m0 h)
    have hev : (evictIfNeeded (moveToEnd (fillPlain now f
        (plainEngine T (mrest.length + 2)) (k0 :: m0 :: mrest)) k0
        (mkPlainItem T now f k0))).cache
        = mrest.map (mkPlainItem T now f) ++ [mkPlainItem T now f k0] := by
      refine evictIfNeeded_head_resolved
        (show (moveToEnd _ k0 _).maxEntries = some (mrest.length + 2) from hfm)
        (mkPlainItem T now f m0)
        (mrest.map (mkPlainItem T now f) ++ [mkPlainItem T now f k0]) ?_ ?_ ?_ ?_
      · rw [hmove]
        rfl
      · rw [hmove, List.length_append, List.length_map]
        rfl
      · rfl
      · rw [hmove]
        show (keysOf ((m0 :: mrest).map (mkPlainItem T now f)
          ++ [mkPlainItem T now f k0])).Nodup
        rw [keysOf, List.map_append, ← keysOf, keysOf_map_mk]
        show ((m0 :: mrest) ++ [k0]).Nodup
        rw [List.nodup_append]
        refine ⟨(List.nodup_append.mp hndB).1, List.nodup_singleton k0, ?_⟩
        intro a ha hb
        rw [List.mem_singleton.mp hb] at ha
        exact hk0ne ha
    have hcache_fin : (insertPlainOp now f (moveToEnd (fillPlain now f
        (plainEngine T (mrest.length + 2)) (k0 :: m0 :: mrest)) k0
        (mkPlainItem T now f k0)) klast).cache
        = (mrest.map (mkPlainItem T now f) ++ [mkPlainItem T now f k0])
          ++ [mkPlainItem T now f klast] := by
      show (setImpl _ klast (.val (f klast)) none now).cache = _
      rw [setImpl_cache, if_neg (by rw [hhk_klast]; exact Bool.false_ne_true), hev]
      rw [show (moveToEnd (fillPlain now f (plainEngine T (mrest.length + 2))
        (k0 :: m0 :: mrest)) k0 (mkPlainItem T now f k0)).ttl = T from hft]
      rfl
    constructor
    · -- k0 is still present
      unfold CacheState.hasKey CacheState.lookup
      have hinner : lookupL (mrest.map (mkPlainItem T now f)
          ++ [mkPlainItem T now f k0]) k0 = some (mkPlainItem T now f k0) :=
        (lookupL_append_of_none (lookupL_map_mk_not_mem hk0_mrest)).trans
          (by rw [lookupL_cons,
            if_pos (show (mkPlainItem T now f k0).key = k0 from rfl)])
      rw [hcache_fin, lookupL_append_of_some hinner]
      rfl
    · -- m0 was the eviction target instead
      unfold CacheState.hasKey CacheState.lookup
      have hinner : lookupL (mrest.map (mkPlainItem T now f)
          ++ [mkPlainItem T now f k0]) m0 = none :=
        (lookupL_append_of_none (lookupL_map_mk_not_mem hm0_mrest)).trans
          (by
            rw [lookupL_cons, if_neg (show ¬((mkPlainItem T now f k0).key = m0) from
              fun h => hm0_k0 (Eq.symm h))]
            rfl)
      rw [hcache_fin, lookupL_append_of_none hinner, lookupL_cons,
        if_neg (show ¬((mkPlainItem T now f klast).key = m0) from
          fun h => hm0_klast (Eq.symm h))]
      rfl

/-- Witness for C6's amended statement at `N = 3` with keys
`k1, k2, k3, k4`. -/
theorem C6_lru_eviction_policy_witness :
    ("k1" :: (("k2" :: ["k3"]) ++ ["k4"])).Nodup ∧
    ((∀ (s : CacheState) (k : String) (v : PVal) (o : Option Nat) (now' : Nat),
      s.hasKey k = true → ∀ e ∈ s.cache, e.key ≠ k → e ∈ (setOp s k v o now').cache) ∧
    (∀ (s : CacheState) (k : String) (v : PVal) (o : Option Nat) (now' : Nat),
      s.maxEntries = none → ∀ e ∈ s.cache, e.key ≠ k → e ∈ (setOp s k v o now').cache) ∧
    (∀ (khd : String) (ktl : List String) (kn : String),
      ((khd :: ktl) ++ [kn]).Nodup →
      (insertPlainOp 0 (fun _ => (0 : Int))
          (fillPlain 0 (fun _ => (0 : Int)) (plainEngine 5 (ktl.length + 1))
            (khd :: ktl)) kn).cache
        = (ktl ++ [kn]).map (mkPlainItem 5 0 (fun _ => (0 : Int))) ∧
      (insertPlainOp 0 (fun _ => (0 : Int))
          (fillPlain 0 (fun _ => (0 : Int)) (plainEngine 5 (ktl.length + 1))
            (khd :: ktl)) kn).hasKey khd = false ∧
      (∀ kk ∈ ktl ++ [kn],
        (insertPlainOp 0 (fun _ => (0 : Int))
          (fillPlain 0 (fun _ => (0 : Int)) (plainEngine 5 (ktl.length + 1))
            (khd :: ktl)) kn).hasKey kk = true) ∧
      (insertPlainOp 0 (fun _ => (0 : Int))
          (fillPlain 0 (fun _ => (0 : Int)) (plainEngine 5 (ktl.length + 1))
            (khd :: ktl)) kn).size = ktl.length + 1) ∧
    (∀ (fA : Fetch) (oA : Option Nat),
      (insertPlainOp 0 (fun _ => (0 : Int)) ((getSync
          (fillPlain 0 (fun _ => (0 : Int))
            (plainEngine 5 (List.length ["k3"] + 2)) ("k1" :: "k2" :: ["k3"]))
          "k1" fA oA 0).2) "k4").hasKey "k1" = true ∧
      (insertPlainOp 0 (fun _ => (0 : Int)) ((getSync
          (fillPlain 0 (fun _ => (0 : Int))
            (plainEngine 5 (List.length ["k3"] + 2)) ("k1" :: "k2" :: ["k3"]))
          "k1" fA oA 0).2) "k4").hasKey "k2" = false)) :=
  ⟨by decide, C6_lru_eviction_policy 5 0 (fun _ => (0 : Int)) "k1" "k2" "k4" ["k3"]
    (by decide)⟩

end PromiseCacheX
